import Mathlib

/-!
Verification of the motec-i2 LD-file codec (Rust) against its specification.

Shallow embedding conventions:
* the byte stream (`std::io` sink/source) is a total byte store `File := Nat → Nat`;
  seeks followed by sequential writes become `writeBytes` at an absolute address,
  seeks followed by sequential reads become reads at absolute addresses;
* machine integers are `Nat`/`Int` with explicit `% 2^w` where the Rust code can
  wrap (u32 address arithmetic, `as u32` casts, two's-complement i16/i32 codecs);
* IEEE floating point values are modelled as exact rationals (`ℚ`); the bit-level
  f32 codec is kept abstract (theorems are quantified over any such codec, which
  also shows the claims at hand do not depend on it);
* Rust `String` values are modelled by their UTF-8 byte sequences (`List Nat`);
* fallible operations return `Except I2Error`; Rust panics and the reader's
  possibly non-terminating linked-list loop are modelled with `Option` (`none`
  is a panic respectively exhausted fuel).
-/

namespace MotecI2

/-! ## Little-endian byte codecs (byteorder crate primitives) -/

/-- Little-endian byte encoding of a u16 value. -/
def u16le (v : Nat) : List Nat := [v % 256, v / 256 % 256]

/-- Little-endian byte encoding of a u32 value. -/
def u32le (v : Nat) : List Nat :=
  [v % 256, v / 256 % 256, v / 2 ^ 16 % 256, v / 2 ^ 24 % 256]

/-- Two's-complement little-endian encoding of an i16 value. -/
def i16le (v : Int) : List Nat := u16le (v % 65536).toNat

/-- Two's-complement little-endian encoding of an i32 value. -/
def i32le (v : Int) : List Nat := u32le (v % 2 ^ 32).toNat

/-- Reinterpret an unsigned 16-bit value as a signed (two's-complement) one. -/
def tc16 (n : Nat) : Int :=
  if n % 65536 < 32768 then (n % 65536 : Int) else (n % 65536 : Int) - 65536

/-- Reinterpret an unsigned 32-bit value as a signed (two's-complement) one. -/
def tc32 (n : Nat) : Int :=
  if n % 2 ^ 32 < 2 ^ 31 then (n % 2 ^ 32 : Int) else (n % 2 ^ 32 : Int) - 2 ^ 32

/-! ## The byte stream model -/

/-- A random-access byte store: address to byte value. -/
def File : Type := Nat → Nat

/-- Write a block of bytes at an absolute address (seek + sequential write):
the store holds `bs` on `[a, a + bs.length)` and is untouched elsewhere. -/
def writeBytes (f : File) (a : Nat) (bs : List Nat) : File :=
  fun x => if a ≤ x ∧ x < a + bs.length then bs.getD (x - a) 0 else f x

/-- Read a u16 (little endian) at an absolute address. -/
def readU16 (f : File) (a : Nat) : Nat := f a + 256 * f (a + 1)

/-- Read a u32 (little endian) at an absolute address. -/
def readU32 (f : File) (a : Nat) : Nat :=
  f a + 256 * f (a + 1) + 2 ^ 16 * f (a + 2) + 2 ^ 24 * f (a + 3)

/-- Read an i16 (little endian, two's complement) at an absolute address. -/
def readI16 (f : File) (a : Nat) : Int := tc16 (readU16 f a)

/-- Read an i32 (little endian, two's complement) at an absolute address. -/
def readI32 (f : File) (a : Nat) : Int := tc32 (readU32 f a)

/-- Read `n` raw bytes at an absolute address (`LDReader::read_bytes`). -/
def readBytesList (f : File) (a n : Nat) : List Nat :=
  (List.range n).map fun i => f (a + i)

/-- The byte prefix `LDReader::read_string` feeds to `from_utf8`: the field's
bytes up to (excluding) the first zero byte, the whole field if it has none
(`&bytes[0..str_size]` with `str_size` the position of the first NUL). -/
def readStringBytes (f : File) (a n : Nat) : List Nat :=
  (readBytesList f a n).takeWhile fun c => c ≠ 0

/-! ## Embedding of `src/error.rs` -/

/-- Embedding of the `I2Error` enum from `src/error.rs`. The `io::Error` and
`Utf8Error` payloads are opaque to the claims and carry no data here. -/
inductive I2Error : Type where
  | IOError : I2Error
  | InvalidHeaderMarker : (found : Nat) → (expected : Nat) → I2Error
  | UnrecognizedDatatype : (t : Nat) → (size : Nat) → I2Error
  | NonUtf8String : I2Error
deriving DecidableEq

deriving instance DecidableEq for Except

/-- UTF-8 well-formedness of a byte sequence, as `std::str::from_utf8` checks
it (Unicode Table 3-7: ASCII, C2..DF + 1 continuation, three-byte forms with
the E0/ED second-byte restrictions that exclude overlongs and surrogates,
four-byte forms with the F0/F4 restrictions that exclude overlongs and values
beyond U+10FFFF). -/
def validUtf8 : List Nat → Bool
  | [] => true
  | b :: rest =>
    if b ≤ 0x7F then validUtf8 rest
    else if 0xC2 ≤ b ∧ b ≤ 0xDF then
      match rest with
      | c :: rest2 => (decide (0x80 ≤ c ∧ c ≤ 0xBF)) && validUtf8 rest2
      | [] => false
    else if b = 0xE0 then
      match rest with
      | c :: d :: rest2 =>
        (decide (0xA0 ≤ c ∧ c ≤ 0xBF ∧ 0x80 ≤ d ∧ d ≤ 0xBF)) &&
          validUtf8 rest2
      | _ => false
    else if (0xE1 ≤ b ∧ b ≤ 0xEC) ∨ b = 0xEE ∨ b = 0xEF then
      match rest with
      | c :: d :: rest2 =>
        (decide (0x80 ≤ c ∧ c ≤ 0xBF ∧ 0x80 ≤ d ∧ d ≤ 0xBF)) &&
          validUtf8 rest2
      | _ => false
    else if b = 0xED then
      match rest with
      | c :: d :: rest2 =>
        (decide (0x80 ≤ c ∧ c ≤ 0x9F ∧ 0x80 ≤ d ∧ d ≤ 0xBF)) &&
          validUtf8 rest2
      | _ => false
    else if b = 0xF0 then
      match rest with
      | c :: d :: e :: rest2 =>
        (decide (0x90 ≤ c ∧ c ≤ 0xBF ∧ 0x80 ≤ d ∧ d ≤ 0xBF ∧
          0x80 ≤ e ∧ e ≤ 0xBF)) && validUtf8 rest2
      | _ => false
    else if 0xF1 ≤ b ∧ b ≤ 0xF3 then
      match rest with
      | c :: d :: e :: rest2 =>
        (decide (0x80 ≤ c ∧ c ≤ 0xBF ∧ 0x80 ≤ d ∧ d ≤ 0xBF ∧
          0x80 ≤ e ∧ e ≤ 0xBF)) && validUtf8 rest2
      | _ => false
    else if b = 0xF4 then
      match rest with
      | c :: d :: e :: rest2 =>
        (decide (0x80 ≤ c ∧ c ≤ 0x8F ∧ 0x80 ≤ d ∧ d ≤ 0xBF ∧
          0x80 ≤ e ∧ e ≤ 0xBF)) && validUtf8 rest2
      | _ => false
    else false

/-- Embedding of `LDReader::read_string`: read a fixed-size field, truncate at
the first zero byte, and validate that prefix as UTF-8 exactly as the source
does (`from_utf8(&bytes[0..str_size])?`); failure is the `NonUtf8String`
error. The success value stays the raw byte sequence of the string. -/
def read_string (f : File) (a n : Nat) : Except I2Error (List Nat) :=
  if validUtf8 (readStringBytes f a n) then .ok (readStringBytes f a n)
  else .error .NonUtf8String

/-! ## Embedding of `src/structs.rs` -/

/-- Embedding of `FileAddr + u32` / `FileAddr + u64` from `src/structs.rs`:
`FileAddr(self.0 + rhs as u32)`, i.e. the increment is truncated to 32 bits and
the addition is performed in (wrapping) 32-bit arithmetic. The `FileAddr`
newtype's `u32` field is modelled as a `Nat` kept below `2 ^ 32`. -/
def FileAddr.add (a n : Nat) : Nat := (a % 2 ^ 32 + n % 2 ^ 32) % 2 ^ 32

/-- Embedding of the `Datatype` enum from `src/structs.rs`. -/
inductive Datatype : Type where
  | Beacon16 | Beacon32
  | I16 | I32
  | F16 | F32
  | Invalid
deriving DecidableEq

/-- Embedding of `Datatype::size` (size in bytes that this datatype occupies). -/
def Datatype.size : Datatype → Nat
  | .Beacon16 | .I16 | .F16 => 2
  | .Beacon32 | .I32 | .F32 => 4
  | .Invalid => 0

/-- Embedding of `Datatype::_type` (the on-file type code of the variant). -/
def Datatype._type : Datatype → Nat
  | .Beacon16 | .Beacon32 => 0
  | .I16 | .I32 => 3
  | .F16 | .F32 => 7
  | .Invalid => 999

/-- Embedding of `Datatype::from_type_and_size`, the (type code, byte width)
lookup table of `src/structs.rs`; the match arms are mirrored in order. -/
def Datatype.fromTypeAndSize (t s : Nat) : Except I2Error Datatype :=
  if t = 0 ∧ s = 2 then .ok .Beacon16
  else if t = 0 ∧ s = 4 then .ok .Beacon32
  else if t = 3 ∧ s = 2 then .ok .I16
  else if t = 3 ∧ s = 4 then .ok .I32
  else if t = 5 ∧ s = 2 then .ok .I16
  else if t = 5 ∧ s = 4 then .ok .I32
  else if t = 7 ∧ s = 2 then .ok .F16
  else if t = 7 ∧ s = 4 then .ok .F32
  else if t = 17536 ∧ s = 5 then .ok .Invalid
  else if t = 6566 ∧ s = 5 then .ok .Invalid
  else if t = 29813 ∧ s = 5 then .ok .Invalid
  else if t = 0 ∧ s = 5 then .ok .Invalid
  else if t = 15 ∧ s = 5 then .ok .Invalid
  else .error (.UnrecognizedDatatype t s)

/-- The (type code, byte width) pairs recognized by `from_type_and_size`. -/
def datatypeTable : List (Nat × Nat) :=
  [(0, 2), (0, 4), (3, 2), (3, 4), (5, 2), (5, 4), (7, 2), (7, 4),
   (17536, 5), (6566, 5), (29813, 5), (0, 5), (15, 5)]

/-- Embedding of the `Sample` enum. The numeric payloads are the mathematical
values of the machine numbers; `F32` carries an exact rational. -/
inductive Sample : Type where
  | I16 : Int → Sample
  | I32 : Int → Sample
  | F32 : ℚ → Sample
deriving DecidableEq

/-- The `raw as f64` conversion at the start of `Sample::decode_f64`
(exact for every i16, i32 and f32 input). -/
def Sample.val : Sample → ℚ
  | .I16 v => (v : ℚ)
  | .I32 v => (v : ℚ)
  | .F32 v => v

/-- Embedding of the `Channel` struct from `src/structs.rs`. The `u16` fields
are `Nat` (kept below `2 ^ 16` by the Rust types), `dec_places` is an `i16`
modelled as `Int`, strings are UTF-8 byte lists. -/
structure Channel : Type where
  datatype : Datatype
  sample_rate : Nat
  offset : Nat
  mul : Nat
  scale : Nat
  dec_places : Int
  name : List Nat
  short_name : List Nat
  unit : List Nat
deriving DecidableEq

/-- Embedding of `Sample::decode_f64` from `src/structs.rs`, with IEEE double
arithmetic modelled as exact rational arithmetic. The let-sequence mirrors the
source statement by statement. -/
def Sample.decode_f64 (s : Sample) (channel : Channel) : ℚ :=
  let value := s.val
  let value := value / (channel.scale : ℚ)
  let value := value * (10 : ℚ) ^ (-channel.dec_places)
  let value := value * (channel.mul : ℚ)
  let value := value + (channel.offset : ℚ)
  value

/-- Embedding of the `FileChannel` struct from `src/structs.rs`. -/
structure FileChannel : Type where
  prev_addr : Nat
  next_addr : Nat
  data_addr : Nat
  samples : Nat
  channel : Channel
deriving DecidableEq

/-- Embedding of `FileChannel::ENTRY_SIZE`. -/
def FileChannel.ENTRY_SIZE : Nat := 124

/-- Embedding of `FileChannel::NEXT_ADDR_OFFSET`. -/
def FileChannel.NEXT_ADDR_OFFSET : Nat := 4

/-- Embedding of `FileChannel::DATA_ADDR_OFFSET`. -/
def FileChannel.DATA_ADDR_OFFSET : Nat := 8

/-- Embedding of `FileChannel::data_size` (`self.samples * size() as u32`,
a wrapping u32 multiplication). -/
def FileChannel.data_size (fc : FileChannel) : Nat :=
  fc.samples * fc.channel.datatype.size % 2 ^ 32

/-- Embedding of the `Header` struct from `src/structs.rs` (the writer-side
header record; strings as UTF-8 byte lists). -/
structure Header : Type where
  device_serial : Nat
  device_type : List Nat
  device_version : Nat
  num_channels : Nat
  date_string : List Nat
  time_string : List Nat
  driver : List Nat
  vehicleid : List Nat
  venue : List Nat
  session : List Nat
  short_comment : List Nat
deriving DecidableEq

/-- Embedding of `Header::CHANNEL_META_OFFSET`. -/
def Header.CHANNEL_META_OFFSET : Nat := 8

/-- Embedding of `Header::CHANNEL_DATA_OFFSET`. -/
def Header.CHANNEL_DATA_OFFSET : Nat := 12

/-- Embedding of `Header::EVENT_OFFSET`. -/
def Header.EVENT_OFFSET : Nat := 36

/-- Embedding of `Event::VENUE_ADDR_OFFSET`. -/
def Event.VENUE_ADDR_OFFSET : Nat := 1152

/-- Embedding of `Venue::VEHICLE_ADDR_OFFSET`. -/
def Venue.VEHICLE_ADDR_OFFSET : Nat := 1098

/-- Embedding of the `ChannelMetadata` record produced by
`LDReader::read_channel_metadata` in `src/reader.rs` (field for field the
record the reader constructs). -/
structure ChannelMetadata : Type where
  prev_addr : Nat
  next_addr : Nat
  data_addr : Nat
  data_count : Nat
  datatype : Datatype
  sample_rate : Nat
  offset : Nat
  mul : Nat
  scale : Nat
  dec_places : Int
  name : List Nat
  short_name : List Nat
  unit : List Nat
deriving DecidableEq

/-- The decode parameters of a read-back `ChannelMetadata`, as a `Channel`
(the shape `Sample::decode_f64` consumes). -/
def ChannelMetadata.toChannel (m : ChannelMetadata) : Channel :=
  { datatype := m.datatype, sample_rate := m.sample_rate, offset := m.offset,
    mul := m.mul, scale := m.scale, dec_places := m.dec_places,
    name := m.name, short_name := m.short_name, unit := m.unit }

/-! ## Embedding of `src/writer.rs` -/

/-- Embedding of `LDWriter::write_string`: the string's UTF-8 bytes truncated
to `max_len`, followed by zero padding up to `max_len`. -/
def write_string (max_len : Nat) (s : List Nat) : List Nat :=
  let bytes := s.take max_len
  bytes ++ List.replicate (max_len - bytes.length) 0

/-- Embedding of `LD_HEADER_MARKER` (`src/reader.rs`). -/
def LD_HEADER_MARKER : Nat := 64

/-- The byte sequence `LDWriter::write_header` emits at offset 0 (after the
`FULL_HEADER` splat), write call by write call in source order. -/
def headerBytes (hdr : Header) : List Nat :=
  u32le LD_HEADER_MARKER ++
  u32le 0 ++
  u32le 0 ++
  u32le 0 ++
  List.replicate 20 0 ++
  List.replicate 24 0 ++
  u16le 0 ++
  u16le 0x4240 ++
  u16le 0x000F ++
  u32le hdr.device_serial ++
  write_string 8 hdr.device_type ++
  u16le hdr.device_version ++
  u16le 0x0080 ++
  u32le hdr.num_channels ++
  u32le 0x10064 ++
  write_string 16 hdr.date_string ++
  write_string 16 [] ++
  write_string 16 hdr.time_string ++
  write_string 16 [] ++
  write_string 64 hdr.driver ++
  write_string 64 hdr.vehicleid ++
  write_string 64 [] ++
  write_string 64 hdr.venue ++
  write_string 64 [] ++
  List.replicate 1024 0 ++
  u32le 0xD20822 ++
  u16le 0 ++
  write_string 64 hdr.session ++
  write_string 64 hdr.short_comment ++
  List.replicate 8 0 ++
  [99] ++
  List.replicate 117 0

/-- The byte sequence `LDWriter::write_file_channel` emits (124 bytes),
write call by write call in source order. -/
def fileChannelBytes (fc : FileChannel) : List Nat :=
  u32le fc.prev_addr ++
  u32le fc.next_addr ++
  u32le fc.data_addr ++
  u32le fc.samples ++
  u16le 4 ++
  u16le fc.channel.datatype._type ++
  u16le fc.channel.datatype.size ++
  u16le fc.channel.sample_rate ++
  u16le fc.channel.offset ++
  u16le fc.channel.mul ++
  u16le fc.channel.scale ++
  i16le fc.channel.dec_places ++
  write_string 32 fc.channel.name ++
  write_string 8 fc.channel.short_name ++
  write_string 12 fc.channel.unit ++
  [201] ++
  List.replicate 39 0

/-- Embedding of `LDWriter::write_samples`: the concatenation of the samples'
little-endian encodings. `f32enc` is the (abstract) IEEE f32 bit encoder. -/
def samplesBytes (f32enc : ℚ → List Nat) : List Sample → List Nat
  | [] => []
  | .I16 v :: rest => i16le v ++ samplesBytes f32enc rest
  | .I32 v :: rest => i32le v ++ samplesBytes f32enc rest
  | .F32 q :: rest => f32enc q ++ samplesBytes f32enc rest

/-- Embedding of the `ChannelId` handle returned by `write_channel`. -/
structure ChannelId : Type where
  id : Nat
  data_size : Nat
deriving DecidableEq

/-- Embedding of the `LDWriter` state: the sink's contents plus the
bookkeeping fields (`channels`, `channel_data_blocks`, `write_pos`). The sink
cursor needs no state of its own because every write sequence of the source
starts with an absolute seek. -/
structure WriterState : Type where
  file : File
  channels : List Nat
  channel_data_blocks : List Nat
  write_pos : Nat

/-- Embedding of `LDWriter::new` over a sink with contents `f0`. -/
def LDWriter.new (f0 : File) : WriterState :=
  { file := f0, channels := [], channel_data_blocks := [], write_pos := 0 }

/-- Embedding of `LDWriter::write_header`: splat `FULL_HEADER` at offset 0
(the `full_header` module is not part of `src/`, so its contents stay an
arbitrary byte list here), overwrite the explicit field sequence at offset 0,
and set the write head to `0x3448`. -/
def LDWriter.write_header (st : WriterState) (fullHeader : List Nat)
    (hdr : Header) : WriterState :=
  { st with
    file := writeBytes (writeBytes st.file 0 fullHeader) 0 (headerBytes hdr),
    write_pos := 0x3448 }

/-- Embedding of `LDWriter::write_channel`: write a fresh 124-byte metadata
record at the write head (with zero `next_addr`/`data_addr` placeholders),
back-patch the previous record's `next_addr` field, record the address and
advance the write head by `ENTRY_SIZE`. -/
def LDWriter.write_channel (st : WriterState) (channel : Channel)
    (data : List Sample) : WriterState × ChannelId :=
  let channel_addr := st.write_pos
  let prev_addr := (st.channels.getLast?).getD 0
  let fc : FileChannel :=
    { prev_addr := prev_addr, next_addr := 0, data_addr := 0,
      samples := data.length % 2 ^ 32, channel := channel }
  let f1 := writeBytes st.file channel_addr (fileChannelBytes fc)
  let f2 := if prev_addr = 0 then f1
    else writeBytes f1 (FileAddr.add prev_addr FileChannel.NEXT_ADDR_OFFSET)
      (u32le channel_addr)
  let cid : ChannelId := { id := st.channels.length, data_size := fc.data_size }
  ({ file := f2,
     channels := st.channels ++ [channel_addr],
     channel_data_blocks := st.channel_data_blocks,
     write_pos := FileAddr.add channel_addr FileChannel.ENTRY_SIZE }, cid)

/-- Embedding of `LDWriter::write_channel_data`: write the sample payload at
the write head, back-patch the owning record's `data_addr` field, record the
data block address and advance the write head by the channel's `data_size`. -/
def LDWriter.write_channel_data (f32enc : ℚ → List Nat) (st : WriterState)
    (channel : ChannelId) (samples : List Sample) : WriterState :=
  let data_addr := st.write_pos
  let f1 := writeBytes st.file data_addr (samplesBytes f32enc samples)
  let channel_addr := st.channels.getD channel.id 0
  let f2 := writeBytes f1 (FileAddr.add channel_addr FileChannel.DATA_ADDR_OFFSET)
    (u32le data_addr)
  { file := f2,
    channels := st.channels,
    channel_data_blocks := st.channel_data_blocks ++ [data_addr],
    write_pos := FileAddr.add data_addr channel.data_size }

/-- Embedding of `Vec::iter().min()` over the recorded address lists. -/
def listMin : List Nat → Option Nat
  | [] => none
  | x :: xs =>
    match listMin xs with
    | none => some x
    | some m => some (Nat.min x m)

/-- Embedding of `LDWriter::finish`: back-patch the header's channel-data and
channel-meta pointer fields with the minimum recorded addresses; with nothing
recorded the source panics (`"No data written"`), modelled as `none`. -/
def LDWriter.finish (st : WriterState) : Option File :=
  match listMin st.channel_data_blocks, listMin st.channels with
  | some daddr, some maddr =>
    some (writeBytes (writeBytes st.file (Header.CHANNEL_DATA_OFFSET)
      (u32le daddr)) (Header.CHANNEL_META_OFFSET) (u32le maddr))
  | _, _ => none

/-- One channel processed in the claimed order: `write_channel` immediately
followed by `write_channel_data` with the same sample vector. -/
def writeOne (f32enc : ℚ → List Nat) (st : WriterState)
    (cd : Channel × List Sample) : WriterState :=
  let p := LDWriter.write_channel st cd.1 cd.2
  LDWriter.write_channel_data f32enc p.1 p.2 cd.2

/-- The writer pipeline of the round-trip claim: `write_header`, then
`write_channel`/`write_channel_data` per channel. -/
def runWriter (f32enc : ℚ → List Nat) (f0 : File) (fullHeader : List Nat)
    (hdr : Header) (cds : List (Channel × List Sample)) : WriterState :=
  cds.foldl (writeOne f32enc) (LDWriter.write_header (LDWriter.new f0) fullHeader hdr)

/-! ## Embedding of `src/reader.rs` -/

/-- Embedding of the reader's `AddressTable`. -/
structure AddressTable : Type where
  channel_meta : Nat
  channel_data : Nat
  event : Option Nat
  venue : Option Nat
  vehicle : Option Nat
deriving DecidableEq

/-- Embedding of `LDReader::address_table` (the resolution walk; the per-reader
memoization is invisible to a pure function of the file). -/
def addressTable (f : File) : AddressTable :=
  let channel_meta := readU32 f Header.CHANNEL_META_OFFSET
  let channel_data := readU32 f Header.CHANNEL_DATA_OFFSET
  let eventRaw := readU32 f Header.EVENT_OFFSET
  let event : Option Nat := if eventRaw = 0 then none else some eventRaw
  let venue : Option Nat :=
    match event with
    | some event_addr =>
      let v := readU16 f (FileAddr.add event_addr Event.VENUE_ADDR_OFFSET)
      if v = 0 then none else some v
    | none => none
  let vehicle : Option Nat :=
    match venue with
    | some venue_addr =>
      let v := readU16 f (FileAddr.add venue_addr Venue.VEHICLE_ADDR_OFFSET)
      if v = 0 then none else some v
    | none => none
  { channel_meta := channel_meta, channel_data := channel_data,
    event := event, venue := venue, vehicle := vehicle }

/-- Embedding of the header record `LDReader::read_header` constructs (this
reader revision also carries `pro_logging_bytes`). -/
structure ReadHeader : Type where
  device_serial : Nat
  device_type : List Nat
  device_version : Nat
  pro_logging_bytes : Nat
  num_channels : Nat
  date_string : List Nat
  time_string : List Nat
  driver : List Nat
  vehicleid : List Nat
  venue : List Nat
  session : List Nat
  short_comment : List Nat
deriving DecidableEq

/-- Embedding of `LDReader::read_header`: check the marker at offset 0, then
decode the fixed field sequence (field offsets are the running byte positions
of the source's sequential reads); a string field whose NUL-truncated prefix
is not UTF-8 propagates `NonUtf8String`, the fields being read in source
order. -/
def read_header (f : File) : Except I2Error ReadHeader :=
  let ldmarker := readU32 f 0
  if ldmarker ≠ LD_HEADER_MARKER then
    .error (.InvalidHeaderMarker ldmarker LD_HEADER_MARKER)
  else
    match read_string f 74 8 with
    | .error e => .error e
    | .ok device_type =>
      match read_string f 94 16 with
      | .error e => .error e
      | .ok date_string =>
        match read_string f 126 16 with
        | .error e => .error e
        | .ok time_string =>
          match read_string f 158 64 with
          | .error e => .error e
          | .ok driver =>
            match read_string f 222 64 with
            | .error e => .error e
            | .ok vehicleid =>
              match read_string f 350 64 with
              | .error e => .error e
              | .ok venue =>
                match read_string f 1508 64 with
                | .error e => .error e
                | .ok session =>
                  match read_string f 1572 64 with
                  | .error e => .error e
                  | .ok short_comment =>
                    .ok { device_serial := readU32 f 70
                          device_type := device_type
                          device_version := readU16 f 82
                          pro_logging_bytes := readU32 f 1502
                          num_channels := readU32 f 86
                          date_string := date_string
                          time_string := time_string
                          driver := driver
                          vehicleid := vehicleid
                          venue := venue
                          session := session
                          short_comment := short_comment }

/-- Embedding of `LDReader::read_channel_metadata`: decode one fixed-size
record at `addr` (field offsets are the running byte positions of the source's
sequential reads); the datatype lookup and the three string reads propagate
their errors in source order. -/
def read_channel_metadata (f : File) (addr : Nat) :
    Except I2Error ChannelMetadata :=
  match Datatype.fromTypeAndSize (readU16 f (addr + 18)) (readU16 f (addr + 20)) with
  | .error e => .error e
  | .ok datatype =>
    match read_string f (addr + 32) 32 with
    | .error e => .error e
    | .ok name =>
      match read_string f (addr + 64) 8 with
      | .error e => .error e
      | .ok short_name =>
        match read_string f (addr + 72) 12 with
        | .error e => .error e
        | .ok unit =>
          .ok { prev_addr := readU32 f addr
                next_addr := readU32 f (addr + 4)
                data_addr := readU32 f (addr + 8)
                data_count := readU32 f (addr + 12)
                datatype := datatype
                sample_rate := readU16 f (addr + 22)
                offset := readU16 f (addr + 24)
                mul := readU16 f (addr + 26)
                scale := readU16 f (addr + 28)
                dec_places := readI16 f (addr + 30)
                name := name
                short_name := short_name
                unit := unit }

/-- The loop of `LDReader::read_channels`, with fuel standing in for the
source's unbounded iteration (`none` = fuel exhausted, i.e. the source would
still be running). -/
def readChannelsAux (f : File) :
    Nat → Nat → Option (Except I2Error (List ChannelMetadata))
  | 0, _ => none
  | fuel + 1, addr =>
    if addr = 0 then some (.ok [])
    else
      match read_channel_metadata f addr with
      | .error e => some (.error e)
      | .ok channel =>
        match readChannelsAux f fuel channel.next_addr with
        | none => none
        | some (.error e) => some (.error e)
        | some (.ok rest) => some (.ok (channel :: rest))

/-- Embedding of `LDReader::read_channels`: walk the linked list from the
resolved channel-metadata head address. -/
def read_channels (f : File) (fuel : Nat) :
    Option (Except I2Error (List ChannelMetadata)) :=
  readChannelsAux f fuel (addressTable f).channel_meta

/-- Embedding of `LDReader::channel_data`: read `data_count` samples of the
channel's datatype starting at `data_addr`. The `F16` (`unimplemented!`) and
`Invalid` (`panic!`) arms are modelled as `none`; `f32dec` is the (abstract)
IEEE f32 bit decoder. -/
def channel_data (f32dec : Nat → ℚ) (f : File) (channel : ChannelMetadata) :
    Option (List Sample) :=
  match channel.datatype with
  | .Beacon16 | .I16 =>
    some ((List.range channel.data_count).map fun i =>
      Sample.I16 (readI16 f (channel.data_addr + 2 * i)))
  | .Beacon32 | .I32 =>
    some ((List.range channel.data_count).map fun i =>
      Sample.I32 (readI32 f (channel.data_addr + 4 * i)))
  | .F32 =>
    some ((List.range channel.data_count).map fun i =>
      Sample.F32 (f32dec (readU32 f (channel.data_addr + 4 * i))))
  | .F16 => none
  | .Invalid => none

/-! ## Byte-store lemmas -/

theorem writeBytes_eq (bs : List Nat) :
    ∀ (f : File) (a x : Nat),
      writeBytes f a bs x =
        if a ≤ x ∧ x < a + bs.length then bs.getD (x - a) 0 else f x :=
  fun _ _ _ => rfl

theorem writeBytes_lt {x a : Nat} (bs : List Nat) (f : File) (h : x < a) :
    writeBytes f a bs x = f x := by
  rw [writeBytes_eq, if_neg (by omega)]

theorem writeBytes_ge {x a : Nat} (bs : List Nat) (f : File)
    (h : a + bs.length ≤ x) : writeBytes f a bs x = f x := by
  rw [writeBytes_eq, if_neg (by omega)]

theorem writeBytes_out {x a : Nat} (bs : List Nat) (f : File)
    (h : x < a ∨ a + bs.length ≤ x) : writeBytes f a bs x = f x := by
  rw [writeBytes_eq, if_neg (by omega)]

theorem readU16_congr {f g : File} {a : Nat}
    (h : ∀ i, i < 2 → f (a + i) = g (a + i)) : readU16 f a = readU16 g a := by
  have h0 := h 0 (by omega)
  have h1 := h 1 (by omega)
  simp only [Nat.add_zero] at h0
  rw [readU16, readU16, h0, h1]

theorem readU32_congr {f g : File} {a : Nat}
    (h : ∀ i, i < 4 → f (a + i) = g (a + i)) : readU32 f a = readU32 g a := by
  have h0 := h 0 (by omega)
  have h1 := h 1 (by omega)
  have h2 := h 2 (by omega)
  have h3 := h 3 (by omega)
  simp only [Nat.add_zero] at h0
  rw [readU32, readU32, h0, h1, h2, h3]

theorem readU16_write_disjoint {f : File} {a b : Nat} (bs : List Nat)
    (h : a + 2 ≤ b ∨ b + bs.length ≤ a) :
    readU16 (writeBytes f b bs) a = readU16 f a := by
  refine readU16_congr fun i hi => ?_
  exact writeBytes_out bs f (by omega)

theorem readU32_write_disjoint {f : File} {a b : Nat} (bs : List Nat)
    (h : a + 4 ≤ b ∨ b + bs.length ≤ a) :
    readU32 (writeBytes f b bs) a = readU32 f a := by
  refine readU32_congr fun i hi => ?_
  exact writeBytes_out bs f (by omega)

theorem u16le_length (v : Nat) : (u16le v).length = 2 := rfl

theorem u32le_length (v : Nat) : (u32le v).length = 4 := rfl

theorem i16le_length (v : Int) : (i16le v).length = 2 := rfl

theorem i32le_length (v : Int) : (i32le v).length = 4 := rfl

theorem readU16_writeBytes_u16le (f : File) (a v : Nat) :
    readU16 (writeBytes f a (u16le v)) a = v % 2 ^ 16 := by
  have h0 := writeBytes_eq (u16le v) f a a
  have h1 := writeBytes_eq (u16le v) f a (a + 1)
  rw [if_pos (by simp only [u16le_length]; omega)] at h0
  rw [if_pos (by simp only [u16le_length]; omega)] at h1
  rw [readU16, h0, h1]
  have hia : a - a = 0 := by omega
  have hib : a + 1 - a = 1 := by omega
  rw [hia, hib]
  simp only [u16le, List.getD_cons_zero, List.getD_cons_succ]
  omega

theorem readU32_writeBytes_u32le (f : File) (a v : Nat) :
    readU32 (writeBytes f a (u32le v)) a = v % 2 ^ 32 := by
  have h0 := writeBytes_eq (u32le v) f a a
  have h1 := writeBytes_eq (u32le v) f a (a + 1)
  have h2 := writeBytes_eq (u32le v) f a (a + 2)
  have h3 := writeBytes_eq (u32le v) f a (a + 3)
  rw [if_pos (by simp only [u32le_length]; omega)] at h0
  rw [if_pos (by simp only [u32le_length]; omega)] at h1
  rw [if_pos (by simp only [u32le_length]; omega)] at h2
  rw [if_pos (by simp only [u32le_length]; omega)] at h3
  rw [readU32, h0, h1, h2, h3]
  have hia : a - a = 0 := by omega
  have hib : a + 1 - a = 1 := by omega
  have hic : a + 2 - a = 2 := by omega
  have hid : a + 3 - a = 3 := by omega
  rw [hia, hib, hic, hid]
  simp only [u32le, List.getD_cons_zero, List.getD_cons_succ]
  omega

theorem listMin_of_ne_nil : ∀ (l : List Nat), l ≠ [] → ∃ m, listMin l = some m := by
  intro l hl
  cases l with
  | nil => exact absurd rfl hl
  | cons x xs =>
    rw [listMin]
    cases listMin xs with
    | none => exact ⟨x, rfl⟩
    | some m => exact ⟨Nat.min x m, rfl⟩

/-! ## Concrete values used by witnesses -/

/-- The channel of the Sample1 decode test (`Air Temp Inlet`, bytes of the
name spelled out): scale 1, one decimal place, multiplier 1, offset 0. -/
def airTempChannel : Channel :=
  { datatype := .I16, sample_rate := 2, offset := 0, mul := 1, scale := 1,
    dec_places := 1,
    name := [65, 105, 114, 32, 84, 101, 109, 112, 32, 73, 110, 108, 101, 116],
    short_name := [65, 105, 114, 32, 84, 101, 109], unit := [67] }

/-! ## Claim theorems: datatype codec, strings, addresses, decode formula -/

/-- C1: `Sample::decode_f64` is the raw value as a double, divided by `scale`,
then multiplied by `10^(-dec_places)`, then multiplied by `mul`, then added to
`offset`, in exactly that order; with `scale = 1`, `dec_places = 1`, `mul = 1`,
`offset = 0` and raw value `199` the result is `19.9` within `1e-6`
(exactly `19.9` in the rational model of double arithmetic). -/
theorem C1_decode_formula :
    (∀ (s : Sample) (c : Channel),
      s.decode_f64 c =
        s.val / (c.scale : ℚ) * (10 : ℚ) ^ (-c.dec_places) * (c.mul : ℚ) +
          (c.offset : ℚ)) ∧
    (∀ c : Channel, c.scale = 1 → c.dec_places = 1 → c.mul = 1 → c.offset = 0 →
      |Sample.decode_f64 (.I16 199) c - 199 / 10| ≤ 1 / 1000000 ∧
        Sample.decode_f64 (.I16 199) c = 199 / 10) := by
  constructor
  · intro s c
    rfl
  · intro c hscale hdec hmul hoffset
    have h : Sample.decode_f64 (.I16 199) c = 199 / 10 := by
      simp only [Sample.decode_f64, Sample.val, hscale, hdec, hmul, hoffset]
      norm_num
    refine ⟨?_, h⟩
    rw [h]
    norm_num

/-- C1 witness: the decode formula evaluated on the concrete Sample1 channel. -/
theorem C1_decode_formula_witness :
    |Sample.decode_f64 (.I16 199) airTempChannel - 199 / 10| ≤ 1 / 1000000 ∧
      Sample.decode_f64 (.I16 199) airTempChannel = 199 / 10 :=
  C1_decode_formula.2 airTempChannel rfl rfl rfl rfl

/-- C6: `Datatype::from_type_and_size` is a deterministic lookup: each table
pair returns its Datatype, the empirically observed no-usable-data pairs
return `Invalid`, and every pair outside the table returns the
`UnrecognizedDatatype` error carrying exactly the offending pair. -/
theorem C6_datatype_lookup :
    (Datatype.fromTypeAndSize 0 2 = .ok .Beacon16 ∧
     Datatype.fromTypeAndSize 0 4 = .ok .Beacon32 ∧
     Datatype.fromTypeAndSize 3 2 = .ok .I16 ∧
     Datatype.fromTypeAndSize 3 4 = .ok .I32 ∧
     Datatype.fromTypeAndSize 5 2 = .ok .I16 ∧
     Datatype.fromTypeAndSize 5 4 = .ok .I32 ∧
     Datatype.fromTypeAndSize 7 2 = .ok .F16 ∧
     Datatype.fromTypeAndSize 7 4 = .ok .F32) ∧
    (Datatype.fromTypeAndSize 17536 5 = .ok .Invalid ∧
     Datatype.fromTypeAndSize 6566 5 = .ok .Invalid ∧
     Datatype.fromTypeAndSize 29813 5 = .ok .Invalid ∧
     Datatype.fromTypeAndSize 0 5 = .ok .Invalid ∧
     Datatype.fromTypeAndSize 15 5 = .ok .Invalid) ∧
    (∀ t s, (t, s) ∉ datatypeTable →
      Datatype.fromTypeAndSize t s = .error (.UnrecognizedDatatype t s)) := by
  refine ⟨by decide, by decide, ?_⟩
  intro t s h
  have n1 : ¬(t = 0 ∧ s = 2) := fun hc => h (by simp [datatypeTable, hc.1, hc.2])
  have n2 : ¬(t = 0 ∧ s = 4) := fun hc => h (by simp [datatypeTable, hc.1, hc.2])
  have n3 : ¬(t = 3 ∧ s = 2) := fun hc => h (by simp [datatypeTable, hc.1, hc.2])
  have n4 : ¬(t = 3 ∧ s = 4) := fun hc => h (by simp [datatypeTable, hc.1, hc.2])
  have n5 : ¬(t = 5 ∧ s = 2) := fun hc => h (by simp [datatypeTable, hc.1, hc.2])
  have n6 : ¬(t = 5 ∧ s = 4) := fun hc => h (by simp [datatypeTable, hc.1, hc.2])
  have n7 : ¬(t = 7 ∧ s = 2) := fun hc => h (by simp [datatypeTable, hc.1, hc.2])
  have n8 : ¬(t = 7 ∧ s = 4) := fun hc => h (by simp [datatypeTable, hc.1, hc.2])
  have n9 : ¬(t = 17536 ∧ s = 5) :=
    fun hc => h (by simp [datatypeTable, hc.1, hc.2])
  have n10 : ¬(t = 6566 ∧ s = 5) :=
    fun hc => h (by simp [datatypeTable, hc.1, hc.2])
  have n11 : ¬(t = 29813 ∧ s = 5) :=
    fun hc => h (by simp [datatypeTable, hc.1, hc.2])
  have n12 : ¬(t = 0 ∧ s = 5) := fun hc => h (by simp [datatypeTable, hc.1, hc.2])
  have n13 : ¬(t = 15 ∧ s = 5) := fun hc => h (by simp [datatypeTable, hc.1, hc.2])
  rw [Datatype.fromTypeAndSize, if_neg n1, if_neg n2, if_neg n3, if_neg n4,
    if_neg n5, if_neg n6, if_neg n7, if_neg n8, if_neg n9, if_neg n10,
    if_neg n11, if_neg n12, if_neg n13]

/-- C6 witness: the out-of-table pair `(1, 1)` yields the diagnostic error. -/
theorem C6_datatype_lookup_witness :
    Datatype.fromTypeAndSize 1 1 = .error (.UnrecognizedDatatype 1 1) :=
  C6_datatype_lookup.2.2 1 1 (by decide)

/-- C8 counterexample: the table pair `(0, 5)` returns a Datatype (`Invalid`)
whose `size()` is `0`, not the width `5` of the pair — so the returned
variant's size does not agree with the width for this in-table pair. -/
theorem C8_size_counterexample :
    Datatype.fromTypeAndSize 0 5 = .ok .Invalid ∧
      (0, 5) ∈ datatypeTable ∧ Datatype.size .Invalid ≠ 5 := by
  decide

/-- C8 (amended): `from_type_and_size` is a function of its two arguments
(purity is by construction in the model), and whenever it returns a Datatype,
that Datatype's `size()` equals the queried width unless the result is the
`Invalid` variant, whose `size()` is `0`. -/
theorem C8_size_consistent :
    ∀ t s d, Datatype.fromTypeAndSize t s = .ok d →
      d.size = if d = .Invalid then 0 else s := by
  intro t s d h
  rw [Datatype.fromTypeAndSize] at h
  by_cases c1 : t = 0 ∧ s = 2
  · rw [if_pos c1] at h
    injection h with hinj; subst hinj; obtain ⟨rfl, rfl⟩ := c1; decide
  rw [if_neg c1] at h
  by_cases c2 : t = 0 ∧ s = 4
  · rw [if_pos c2] at h
    injection h with hinj; subst hinj; obtain ⟨rfl, rfl⟩ := c2; decide
  rw [if_neg c2] at h
  by_cases c3 : t = 3 ∧ s = 2
  · rw [if_pos c3] at h
    injection h with hinj; subst hinj; obtain ⟨rfl, rfl⟩ := c3; decide
  rw [if_neg c3] at h
  by_cases c4 : t = 3 ∧ s = 4
  · rw [if_pos c4] at h
    injection h with hinj; subst hinj; obtain ⟨rfl, rfl⟩ := c4; decide
  rw [if_neg c4] at h
  by_cases c5 : t = 5 ∧ s = 2
  · rw [if_pos c5] at h
    injection h with hinj; subst hinj; obtain ⟨rfl, rfl⟩ := c5; decide
  rw [if_neg c5] at h
  by_cases c6 : t = 5 ∧ s = 4
  · rw [if_pos c6] at h
    injection h with hinj; subst hinj; obtain ⟨rfl, rfl⟩ := c6; decide
  rw [if_neg c6] at h
  by_cases c7 : t = 7 ∧ s = 2
  · rw [if_pos c7] at h
    injection h with hinj; subst hinj; obtain ⟨rfl, rfl⟩ := c7; decide
  rw [if_neg c7] at h
  by_cases c8 : t = 7 ∧ s = 4
  · rw [if_pos c8] at h
    injection h with hinj; subst hinj; obtain ⟨rfl, rfl⟩ := c8; decide
  rw [if_neg c8] at h
  by_cases c9 : t = 17536 ∧ s = 5
  · rw [if_pos c9] at h
    injection h with hinj; subst hinj; obtain ⟨rfl, rfl⟩ := c9; decide
  rw [if_neg c9] at h
  by_cases c10 : t = 6566 ∧ s = 5
  · rw [if_pos c10] at h
    injection h with hinj; subst hinj; obtain ⟨rfl, rfl⟩ := c10; decide
  rw [if_neg c10] at h
  by_cases c11 : t = 29813 ∧ s = 5
  · rw [if_pos c11] at h
    injection h with hinj; subst hinj; obtain ⟨rfl, rfl⟩ := c11; decide
  rw [if_neg c11] at h
  by_cases c12 : t = 0 ∧ s = 5
  · rw [if_pos c12] at h
    injection h with hinj; subst hinj; obtain ⟨rfl, rfl⟩ := c12; decide
  rw [if_neg c12] at h
  by_cases c13 : t = 15 ∧ s = 5
  · rw [if_pos c13] at h
    injection h with hinj; subst hinj; obtain ⟨rfl, rfl⟩ := c13; decide
  rw [if_neg c13] at h
  exact Except.noConfusion h

/-- C8 witness: the amended statement applied at the table pair `(3, 2)`. -/
theorem C8_size_consistent_witness :
    Datatype.size .I16 = if Datatype.I16 = .Invalid then 0 else 2 :=
  C8_size_consistent 3 2 .I16 (by decide)

/-- C9: `write_string` emits exactly `max_len` bytes: the string's UTF-8 bytes
truncated to at most `max_len`, followed by zero padding up to `max_len`. -/
theorem C9_write_string :
    ∀ (max_len : Nat) (s : List Nat),
      write_string max_len s =
        s.take max_len ++ List.replicate (max_len - (s.take max_len).length) 0 ∧
      (write_string max_len s).length = max_len ∧
      (s.take max_len).length ≤ max_len := by
  intro max_len s
  refine ⟨rfl, ?_, ?_⟩
  · simp only [write_string, List.length_append, List.length_take,
      List.length_replicate]
    omega
  · simp only [List.length_take]
    omega

/-- C10: `FileAddr` addition truncates the increment to 32 bits and adds in
32-bit wrapping arithmetic, so the result is `(a + n) % 2^32`; positions at
or beyond `2^32` wrap around. -/
theorem C10_fileaddr_add :
    ∀ a n : Nat, a < 2 ^ 32 → FileAddr.add a n = (a + n) % 2 ^ 32 := by
  intro a n ha
  unfold FileAddr.add
  omega

/-- C10 witness: the largest 32-bit address plus one wraps to zero. -/
theorem C10_fileaddr_add_witness :
    FileAddr.add 4294967295 1 = (4294967295 + 1) % 2 ^ 32 :=
  C10_fileaddr_add 4294967295 1 (by norm_num)

/-! ## Claim theorems: reader error path, traversal, writer finish -/

/-- C3: whenever the first four little-endian bytes are not the magic marker,
`read_header` returns `InvalidHeaderMarker` carrying the found and expected
values, and the result depends on nothing but those four bytes (no further
header field is read after the marker check). -/
theorem C3_invalid_marker :
    ∀ f : File, readU32 f 0 ≠ LD_HEADER_MARKER →
      read_header f =
        .error (.InvalidHeaderMarker (readU32 f 0) LD_HEADER_MARKER) ∧
      (∀ g : File, (∀ i, i < 4 → g i = f i) → read_header g = read_header f) := by
  intro f h
  constructor
  · rw [read_header, if_pos h]
  · intro g hg
    have hm : readU32 g 0 = readU32 f 0 := by
      refine readU32_congr fun i hi => ?_
      simpa using hg i hi
    rw [read_header, read_header, hm, if_pos h, if_pos h]

/-- C3 witness: an all-zero file has marker 0 and is rejected with the
diagnostic error; the result only depends on the first four bytes. -/
theorem C3_invalid_marker_witness :
    read_header (fun _ => 0) =
      .error (.InvalidHeaderMarker (readU32 (fun _ => 0) 0) LD_HEADER_MARKER) ∧
    (∀ g : File, (∀ i, i < 4 → g i = (fun _ => 0) i) →
      read_header g = read_header (fun _ => 0)) :=
  C3_invalid_marker (fun _ => 0) (by decide)

/-- C5: `read_channels` starts at the resolved channel-metadata head address;
a zero head yields the empty sequence with no record decoded; at a nonzero
address one fixed-size record is decoded, appended in traversal order and the
walk continues at its `next_addr`; a record with `next_addr = 0` terminates
the traversal immediately. -/
theorem C5_traversal :
    ∀ (f : File) (fuel : Nat),
      (read_channels f (fuel + 1) =
        readChannelsAux f (fuel + 1) (addressTable f).channel_meta) ∧
      ((addressTable f).channel_meta = 0 →
        read_channels f (fuel + 1) = some (.ok [])) ∧
      (∀ addr, addr ≠ 0 →
        readChannelsAux f (fuel + 1) addr =
          match read_channel_metadata f addr with
          | .error e => some (.error e)
          | .ok channel =>
            match readChannelsAux f fuel channel.next_addr with
            | none => none
            | some (.error e) => some (.error e)
            | some (.ok rest) => some (.ok (channel :: rest))) ∧
      (∀ addr cm, addr ≠ 0 → read_channel_metadata f addr = .ok cm →
        cm.next_addr = 0 →
        readChannelsAux f (fuel + 1 + 1) addr = some (.ok [cm])) := by
  intro f fuel
  refine ⟨rfl, ?_, ?_, ?_⟩
  · intro h
    rw [read_channels, h, readChannelsAux, if_pos rfl]
  · intro addr haddr
    rw [readChannelsAux, if_neg haddr]
  · intro addr cm haddr hcm hnext
    have hstep : readChannelsAux f (fuel + 1) cm.next_addr = some (.ok []) := by
      rw [hnext, readChannelsAux, if_pos rfl]
    rw [readChannelsAux, if_neg haddr, hcm]
    show (match readChannelsAux f (fuel + 1) cm.next_addr with
      | none => none
      | some (Except.error e) => some (Except.error e)
      | some (Except.ok rest) => some (Except.ok (cm :: rest))) =
        some (Except.ok [cm])
    rw [hstep]

/-- A concrete one-record file for the C5 witness: a single metadata record
written at offset 40, with zero `next_addr`. -/
def c5File : File :=
  writeBytes (fun _ => 0) 40
    (fileChannelBytes
      { prev_addr := 0, next_addr := 0, data_addr := 0, samples := 0,
        channel := airTempChannel })

/-- The metadata record `read_channel_metadata` decodes from `c5File` at 40. -/
def c5Meta : ChannelMetadata :=
  { prev_addr := 0, next_addr := 0, data_addr := 0, data_count := 0,
    datatype := .I16, sample_rate := 2, offset := 0, mul := 1, scale := 1,
    dec_places := 1, name := airTempChannel.name,
    short_name := airTempChannel.short_name, unit := airTempChannel.unit }

set_option maxRecDepth 4000 in
/-- C5 witness: on the concrete one-record file the traversal from address 40
decodes the record, sees `next_addr = 0` and stops with exactly that record. -/
theorem C5_traversal_witness :
    readChannelsAux c5File (1 + 1 + 1) 40 = some (.ok [c5Meta]) :=
  (C5_traversal c5File (1 + 1)).2.2.2 40 c5Meta (by decide) (by decide) rfl

/-- C7 (code bug evidence): `finish` with no channels written does not return
an error value at all — the source panics (`"No data written"`, modelled as
`none`), with a `TODO: Make this a error` comment; and when at least one
channel and one data block were recorded, `finish` back-patches the header's
channel-meta and channel-data pointer fields with the minimum recorded
metadata and data addresses. -/
theorem C7_finish :
    (∀ (f0 : File) (fullHeader : List Nat) (hdr : Header),
      LDWriter.finish (LDWriter.write_header (LDWriter.new f0) fullHeader hdr) =
        none) ∧
    (∀ (st : WriterState) (F : File) (m d : Nat),
      listMin st.channels = some m →
      listMin st.channel_data_blocks = some d →
      LDWriter.finish st = some F →
      readU32 F Header.CHANNEL_META_OFFSET = m % 2 ^ 32 ∧
        readU32 F Header.CHANNEL_DATA_OFFSET = d % 2 ^ 32) := by
  constructor
  · intro f0 fullHeader hdr
    rfl
  · intro st F m d hm hd hF
    rw [LDWriter.finish, hm, hd] at hF
    injection hF with hF
    subst hF
    constructor
    · exact readU32_writeBytes_u32le _ _ _
    · rw [Header.CHANNEL_META_OFFSET, Header.CHANNEL_DATA_OFFSET]
      rw [readU32_write_disjoint (u32le m) (by simp only [u32le_length]; omega)]
      exact readU32_writeBytes_u32le _ _ _

/-- A concrete writer state with one recorded channel and one data block. -/
def c7State : WriterState :=
  { file := fun _ => 0, channels := [13384], channel_data_blocks := [13508],
    write_pos := 13632 }

/-- The file `finish` produces from `c7State`. -/
def c7File : File :=
  writeBytes (writeBytes (fun _ => 0) Header.CHANNEL_DATA_OFFSET (u32le 13508))
    Header.CHANNEL_META_OFFSET (u32le 13384)

/-- C7 witness: on the concrete state, `finish` writes the two minimum
addresses into the header pointer fields. -/
theorem C7_finish_witness :
    readU32 c7File Header.CHANNEL_META_OFFSET = 13384 % 2 ^ 32 ∧
      readU32 c7File Header.CHANNEL_DATA_OFFSET = 13508 % 2 ^ 32 :=
  C7_finish.2 c7State c7File 13384 13508 rfl rfl rfl

/-! ## Writer layout lemmas -/

theorem dataSize_eq (len sz : Nat) (h : len * sz < 2 ^ 32) :
    len % 2 ^ 32 * sz % 2 ^ 32 = len * sz := by
  rcases Nat.eq_zero_or_pos sz with hz | hp
  · subst hz
    simp
  · have hlen : len < 2 ^ 32 :=
      lt_of_le_of_lt (Nat.le_mul_of_pos_right len hp) h
    rw [Nat.mod_eq_of_lt hlen, Nat.mod_eq_of_lt h]

theorem FileAddr.add_eq (a n : Nat) (h : a + n < 2 ^ 32) :
    FileAddr.add a n = a + n := by
  unfold FileAddr.add
  omega

theorem getD_concat : ∀ (l : List Nat) (x : Nat), (l ++ [x]).getD l.length 0 = x := by
  intro l x
  induction l with
  | nil => rfl
  | cons b bs ih => simpa using ih

theorem readU32_write_before {f : File} {b a : Nat} (bs : List Nat)
    (h : a + 4 ≤ b) : readU32 (writeBytes f b bs) a = readU32 f a :=
  readU32_write_disjoint bs (Or.inl h)

theorem readU32_write_u32le_away {f : File} {b a : Nat} (v : Nat)
    (h : a + 4 ≤ b ∨ b + 4 ≤ a) :
    readU32 (writeBytes f b (u32le v)) a = readU32 f a := by
  refine readU32_write_disjoint (u32le v) ?_
  rw [u32le_length]
  exact h

/-- Helper for C4: the two-channel layout facts over an arbitrary start state
with no channels yet and write head `0x3448`. -/
theorem two_channel_layout_aux :
    ∀ (f32enc : ℚ → List Nat) (st : WriterState) (c1 : Channel)
      (d1 : List Sample) (c2 : Channel) (d2 : List Sample),
      st.channels = [] → st.channel_data_blocks = [] → st.write_pos = 13384 →
      13384 + 124 + d1.length * c1.datatype.size + 124 +
          d2.length * c2.datatype.size < 2 ^ 32 →
      (List.foldl (writeOne f32enc) st [(c1, d1), (c2, d2)]).channels =
          [13384, 13508 + d1.length * c1.datatype.size] ∧
      (List.foldl (writeOne f32enc) st
            [(c1, d1), (c2, d2)]).channel_data_blocks =
          [13508, 13632 + d1.length * c1.datatype.size] ∧
      readU32 (List.foldl (writeOne f32enc) st [(c1, d1), (c2, d2)]).file
          (13384 + FileChannel.NEXT_ADDR_OFFSET) =
        13508 + d1.length * c1.datatype.size ∧
      readU32 (List.foldl (writeOne f32enc) st [(c1, d1), (c2, d2)]).file
          (13384 + FileChannel.DATA_ADDR_OFFSET) = 13508 ∧
      readU32 (List.foldl (writeOne f32enc) st [(c1, d1), (c2, d2)]).file
          (13508 + d1.length * c1.datatype.size +
            FileChannel.DATA_ADDR_OFFSET) =
        13632 + d1.length * c1.datatype.size := by
  intro f32enc st c1 d1 c2 d2 hch hbl hwp h
  obtain ⟨F, ch, bl, wp⟩ := st
  replace hch : ch = [] := hch
  replace hbl : bl = [] := hbl
  replace hwp : wp = 13384 := hwp
  subst hch
  subst hbl
  subst hwp
  have e1 : d1.length % 2 ^ 32 * c1.datatype.size % 2 ^ 32 =
      d1.length * c1.datatype.size := dataSize_eq _ _ (by omega)
  have r2 : FileAddr.add 13508 (d1.length * c1.datatype.size) =
      13508 + d1.length * c1.datatype.size := FileAddr.add_eq _ _ (by omega)
  have r3 : FileAddr.add (13508 + d1.length * c1.datatype.size) 124 =
      13632 + d1.length * c1.datatype.size := by
    unfold FileAddr.add
    omega
  have r6 : FileAddr.add (13508 + d1.length * c1.datatype.size) 8 =
      13516 + d1.length * c1.datatype.size := by
    unfold FileAddr.add
    omega
  have hfold : List.foldl (writeOne f32enc) ⟨F, [], [], 13384⟩
      [(c1, d1), (c2, d2)] =
      writeOne f32enc (writeOne f32enc ⟨F, [], [], 13384⟩ (c1, d1)) (c2, d2) :=
    rfl
  rw [hfold]
  have h1 : writeOne f32enc ⟨F, [], [], 13384⟩ (c1, d1) =
      ⟨writeBytes (writeBytes (writeBytes F 13384
          (fileChannelBytes ⟨0, 0, 0, d1.length % 2 ^ 32, c1⟩))
          13508 (samplesBytes f32enc d1)) 13392 (u32le 13508),
        [13384], [13508],
        FileAddr.add 13508
          (d1.length % 2 ^ 32 * c1.datatype.size % 2 ^ 32)⟩ := rfl
  rw [h1, e1, r2]
  have h2 : ∀ G : File,
      writeOne f32enc
          ⟨G, [13384], [13508], 13508 + d1.length * c1.datatype.size⟩
          (c2, d2) =
        ⟨writeBytes (writeBytes (writeBytes (writeBytes G
            (13508 + d1.length * c1.datatype.size)
            (fileChannelBytes ⟨13384, 0, 0, d2.length % 2 ^ 32, c2⟩))
            13388 (u32le (13508 + d1.length * c1.datatype.size)))
            (FileAddr.add (13508 + d1.length * c1.datatype.size) 124)
            (samplesBytes f32enc d2))
            (FileAddr.add (13508 + d1.length * c1.datatype.size) 8)
            (u32le (FileAddr.add
              (13508 + d1.length * c1.datatype.size) 124)),
          [13384, 13508 + d1.length * c1.datatype.size],
          [13508, FileAddr.add (13508 + d1.length * c1.datatype.size) 124],
          FileAddr.add
            (FileAddr.add (13508 + d1.length * c1.datatype.size) 124)
            (d2.length % 2 ^ 32 * c2.datatype.size % 2 ^ 32)⟩ :=
    fun G => rfl
  rw [h2 _, r3, r6]
  have an : 13384 + FileChannel.NEXT_ADDR_OFFSET = 13388 := rfl
  have ad : 13384 + FileChannel.DATA_ADDR_OFFSET = 13392 := rfl
  have ado : FileChannel.DATA_ADDR_OFFSET = 8 := rfl
  have ad2 : 13508 + d1.length * c1.datatype.size +
      FileChannel.DATA_ADDR_OFFSET = 13516 + d1.length * c1.datatype.size := by
    rw [ado]
    omega
  refine ⟨rfl, rfl, ?_, ?_, ?_⟩
  · rw [an]
    refine (readU32_write_u32le_away _ (by omega)).trans ?_
    refine (readU32_write_before _ (by omega)).trans ?_
    exact (readU32_writeBytes_u32le _ _ _).trans (by omega)
  · rw [ad]
    refine (readU32_write_u32le_away _ (by omega)).trans ?_
    refine (readU32_write_before _ (by omega)).trans ?_
    refine (readU32_write_u32le_away _ (by omega)).trans ?_
    refine (readU32_write_before _ (by omega)).trans ?_
    exact (readU32_writeBytes_u32le _ _ _).trans (by norm_num)
  · rw [ad2]
    exact (readU32_writeBytes_u32le _ _ _).trans (by omega)

/-- C4: writing two channels with `write_channel` followed by
`write_channel_data` for each, the first record's back-patched `next_addr`
field holds the base address at which the second record was written, and each
record's back-patched `data_addr` field holds the stream position at which
that channel's first sample byte was written (the recorded data-block
addresses). -/
theorem C4_two_channel_layout :
    ∀ (f32enc : ℚ → List Nat) (f0 : File) (fullHeader : List Nat)
      (hdr : Header) (c1 : Channel) (d1 : List Sample) (c2 : Channel)
      (d2 : List Sample),
      13384 + 124 + d1.length * c1.datatype.size + 124 +
          d2.length * c2.datatype.size < 2 ^ 32 →
      (runWriter f32enc f0 fullHeader hdr [(c1, d1), (c2, d2)]).channels =
          [13384, 13508 + d1.length * c1.datatype.size] ∧
      (runWriter f32enc f0 fullHeader hdr
            [(c1, d1), (c2, d2)]).channel_data_blocks =
          [13508, 13632 + d1.length * c1.datatype.size] ∧
      readU32 (runWriter f32enc f0 fullHeader hdr [(c1, d1), (c2, d2)]).file
          (13384 + FileChannel.NEXT_ADDR_OFFSET) =
        13508 + d1.length * c1.datatype.size ∧
      readU32 (runWriter f32enc f0 fullHeader hdr [(c1, d1), (c2, d2)]).file
          (13384 + FileChannel.DATA_ADDR_OFFSET) = 13508 ∧
      readU32 (runWriter f32enc f0 fullHeader hdr [(c1, d1), (c2, d2)]).file
          (13508 + d1.length * c1.datatype.size +
            FileChannel.DATA_ADDR_OFFSET) =
        13632 + d1.length * c1.datatype.size := by
  intro f32enc f0 fullHeader hdr c1 d1 c2 d2 h
  exact two_channel_layout_aux f32enc
    (LDWriter.write_header (LDWriter.new f0) fullHeader hdr) c1 d1 c2 d2
    rfl rfl rfl h

/-! ## Lemmas for the round-trip proof -/

theorem getD_append_left : ∀ (l l' : List Nat) (i : Nat), i < l.length →
    (l ++ l').getD i 0 = l.getD i 0 := by
  intro l l' i
  induction l generalizing i with
  | nil => intro h; exact absurd h (by simp)
  | cons b bs ih =>
    intro h
    cases i with
    | zero => rfl
    | succ j =>
      simp only [List.cons_append, List.getD_cons_succ]
      exact ih j (by simpa using h)

theorem getD_append_right : ∀ (l l' : List Nat) (i : Nat), l.length ≤ i →
    (l ++ l').getD i 0 = l'.getD (i - l.length) 0 := by
  intro l l' i
  induction l generalizing i with
  | nil => intro _; simp
  | cons b bs ih =>
    intro h
    cases i with
    | zero => exact absurd h (by simp)
    | succ j =>
      simp only [List.cons_append, List.getD_cons_succ, List.length_cons]
      rw [ih j (by simpa using h)]
      congr 1
      omega

theorem writeBytes_append (f : File) (a : Nat) (xs ys : List Nat) :
    writeBytes f a (xs ++ ys) =
      writeBytes (writeBytes f a xs) (a + xs.length) ys := by
  funext x
  simp only [writeBytes, List.length_append]
  by_cases h1 : a ≤ x ∧ x < a + xs.length
  · rw [if_pos (by omega), if_neg (by omega), if_pos h1,
      getD_append_left _ _ _ (by omega)]
  · by_cases h2 : a + xs.length ≤ x ∧ x < a + (xs.length + ys.length)
    · rw [if_pos (by omega), if_pos (by omega),
        getD_append_right _ _ _ (by omega)]
      congr 1
      omega
    · rw [if_neg (by omega), if_neg (by omega), if_neg (by omega)]

theorem write_string_length (w : Nat) (s : List Nat) :
    (write_string w s).length = w := by
  simp only [write_string, List.length_append, List.length_take,
    List.length_replicate]
  omega

theorem fileChannelBytes_length (fc : FileChannel) :
    (fileChannelBytes fc).length = 124 := by
  simp only [fileChannelBytes, List.length_append, u32le_length, u16le_length,
    i16le_length, write_string_length, List.length_replicate,
    List.length_cons, List.length_nil]

theorem takeWhile_append_replicate_zero (xs : List Nat) (k : Nat) :
    (xs ++ List.replicate k 0).takeWhile (fun c => c ≠ 0) =
      xs.takeWhile (fun c => c ≠ 0) := by
  induction xs with
  | nil =>
    simp only [List.nil_append, List.takeWhile_nil]
    induction k with
    | zero => rfl
    | succ n ih =>
      simp only [List.replicate_succ, List.takeWhile_cons]
      simpa using ih
  | cons b bs ih =>
    simp only [List.cons_append, List.takeWhile_cons]
    by_cases hb : b = 0
    · subst hb
      simp
    · simp [hb]
      simpa using ih

/-- What a fixed-width string field reads back as: the written bytes
truncated to the width and then at the first zero byte. -/
def strRead (w : Nat) (s : List Nat) : List Nat :=
  (s.take w).takeWhile fun c => c ≠ 0

theorem readBytesList_congr {f g : File} {a n : Nat}
    (h : ∀ i, i < n → f (a + i) = g (a + i)) :
    readBytesList f a n = readBytesList g a n := by
  simp only [readBytesList]
  refine List.map_congr_left ?_
  intro i hi
  exact h i (List.mem_range.mp hi)

theorem readBytesList_eq_of_region {f : File} {a : Nat} (bs : List Nat)
    (h : ∀ i, i < bs.length → f (a + i) = bs.getD i 0) :
    readBytesList f a bs.length = bs := by
  apply List.ext_getElem
  · simp [readBytesList]
  · intro i h1 h2
    simp only [readBytesList, List.getElem_map, List.getElem_range]
    rw [h i h2, List.getD_eq_getElem _ _ h2]

theorem readStringBytes_of_write_string {f : File} {a w : Nat}
    (s : List Nat)
    (h : ∀ i, i < w → f (a + i) = (write_string w s).getD i 0) :
    readStringBytes f a w = strRead w s := by
  have hl : readBytesList f a w = write_string w s := by
    have := readBytesList_eq_of_region (write_string w s)
      (by rw [write_string_length]; exact h)
    rwa [write_string_length] at this
  rw [readStringBytes, hl, write_string, strRead,
    takeWhile_append_replicate_zero]

theorem readU16_write_before {f : File} {b a : Nat} (bs : List Nat)
    (h : a + 2 ≤ b) : readU16 (writeBytes f b bs) a = readU16 f a :=
  readU16_write_disjoint bs (Or.inl h)

theorem readI16_write_before {f : File} {b a : Nat} (bs : List Nat)
    (h : a + 2 ≤ b) : readI16 (writeBytes f b bs) a = readI16 f a := by
  rw [readI16, readI16, readU16_write_before bs h]

theorem readStringBytes_write_disjoint {f : File} {b a n : Nat} (bs : List Nat)
    (h : a + n ≤ b ∨ b + bs.length ≤ a) :
    readStringBytes (writeBytes f b bs) a n = readStringBytes f a n := by
  rw [readStringBytes, readStringBytes,
    readBytesList_congr fun i hi => writeBytes_out bs f (by omega)]

theorem readStringBytes_writeBytes_write_string (f : File) (a w : Nat)
    (s : List Nat) :
    readStringBytes (writeBytes f a (write_string w s)) a w = strRead w s := by
  refine readStringBytes_of_write_string s fun i hi => ?_
  simp only [writeBytes, write_string_length]
  rw [if_pos (by omega)]
  congr 1
  omega

theorem readU16_writeBytes_u16le_lt (f : File) (a v : Nat) (h : v < 2 ^ 16) :
    readU16 (writeBytes f a (u16le v)) a = v := by
  rw [readU16_writeBytes_u16le, Nat.mod_eq_of_lt h]

theorem readU32_writeBytes_u32le_lt (f : File) (a v : Nat) (h : v < 2 ^ 32) :
    readU32 (writeBytes f a (u32le v)) a = v := by
  rw [readU32_writeBytes_u32le, Nat.mod_eq_of_lt h]

theorem tc16_toNat (v : Int) (h1 : -(2 ^ 15) ≤ v) (h2 : v < 2 ^ 15) :
    tc16 ((v % 65536).toNat % 2 ^ 16) = v := by
  unfold tc16
  omega

theorem readI16_writeBytes_i16le (f : File) (a : Nat) (v : Int)
    (h1 : -(2 ^ 15) ≤ v) (h2 : v < 2 ^ 15) :
    readI16 (writeBytes f a (i16le v)) a = v := by
  rw [readI16, i16le, readU16_writeBytes_u16le]
  exact tc16_toNat v h1 h2

theorem tc32_toNat (v : Int) (h1 : -(2 ^ 31) ≤ v) (h2 : v < 2 ^ 31) :
    tc32 ((v % 2 ^ 32).toNat % 2 ^ 32) = v := by
  unfold tc32
  omega

theorem readI32_writeBytes_i32le (f : File) (a : Nat) (v : Int)
    (h1 : -(2 ^ 31) ≤ v) (h2 : v < 2 ^ 31) :
    readI32 (writeBytes f a (i32le v)) a = v := by
  rw [readI32, i32le, readU32_writeBytes_u32le]
  exact tc32_toNat v h1 h2

theorem readI16_congr {f g : File} {a : Nat}
    (h : ∀ i, i < 2 → f (a + i) = g (a + i)) : readI16 f a = readI16 g a := by
  rw [readI16, readI16, readU16_congr h]

theorem readI32_congr {f g : File} {a : Nat}
    (h : ∀ i, i < 4 → f (a + i) = g (a + i)) : readI32 f a = readI32 g a := by
  rw [readI32, readI32, readU32_congr h]

theorem readStringBytes_congr {f g : File} {a n : Nat}
    (h : ∀ i, i < n → f (a + i) = g (a + i)) :
    readStringBytes f a n = readStringBytes g a n := by
  rw [readStringBytes, readStringBytes, readBytesList_congr h]

/-! ## Round-trip: side conditions and the expected read-back records -/

/-- The four datatypes whose sample payloads the reader decodes as integers. -/
def intDatatype (dt : Datatype) : Prop :=
  dt = .I16 ∨ dt = .Beacon16 ∨ dt = .I32 ∨ dt = .Beacon32

/-- The datatypes `channel_data` decodes without panicking: the integer ones
and `F32` (`F16` is `unimplemented!`, `Invalid` is `panic!`). -/
def okDatatype (dt : Datatype) : Prop :=
  intDatatype dt ∨ dt = .F32

/-- A sample is consistent with a channel's datatype: the variant has the
datatype's width and an integer payload is in the machine-integer range (in
Rust this is enforced by the `i16`/`i32`/`f32` payload types of `Sample`). -/
def sampleMatches (dt : Datatype) (s : Sample) : Prop :=
  match dt, s with
  | .I16, .I16 v => -(2 ^ 15) ≤ v ∧ v < 2 ^ 15
  | .Beacon16, .I16 v => -(2 ^ 15) ≤ v ∧ v < 2 ^ 15
  | .I32, .I32 v => -(2 ^ 31) ≤ v ∧ v < 2 ^ 31
  | .Beacon32, .I32 v => -(2 ^ 31) ≤ v ∧ v < 2 ^ 31
  | .F32, .F32 _ => True
  | _, _ => False

/-- Recombine four little-endian bytes into the u32 value `readU32` yields on
them. -/
def leWord (bs : List Nat) : Nat :=
  bs.getD 0 0 + 256 * bs.getD 1 0 + 2 ^ 16 * bs.getD 2 0 + 2 ^ 24 * bs.getD 3 0

/-- The abstract f32 codec inverts on this sample: an `F32` payload encodes to
four bytes whose u32 recombination decodes back to the payload (true of the
IEEE bit codec the source uses via `write_f32`/`read_f32`, which round-trips
bit-identically); integer samples impose nothing. -/
def sampleCodecOK (f32enc : ℚ → List Nat) (f32dec : Nat → ℚ) : Sample → Prop
  | .F32 q => (f32enc q).length = 4 ∧ f32dec (leWord (f32enc q)) = q
  | _ => True

/-- The side conditions under which one channel round-trips: a datatype the
reader decodes (integer or f32), samples matching it, and field values within
their machine-integer ranges (the latter are Rust type invariants of
`Channel`). -/
def GoodChannel (c : Channel) (d : List Sample) : Prop :=
  okDatatype c.datatype ∧
  (∀ s ∈ d, sampleMatches c.datatype s) ∧
  c.sample_rate < 2 ^ 16 ∧ c.offset < 2 ^ 16 ∧ c.mul < 2 ^ 16 ∧
  c.scale < 2 ^ 16 ∧ -(2 ^ 15) ≤ c.dec_places ∧ c.dec_places < 2 ^ 15

/-- A channel name that fits its 32-byte file field: at most 32 bytes, none
of them NUL (the reader stops at the first NUL and at the field end). -/
def GoodName (c : Channel) : Prop :=
  c.name.length ≤ 32 ∧ ∀ b ∈ c.name, b ≠ 0

/-- The string fields read back without a `NonUtf8String` error: each field's
NUL-truncated on-file prefix is well-formed UTF-8 (a Rust `String` is always
valid UTF-8, so this only excludes truncations that split a multi-byte
character at the field boundary). -/
def GoodStrings (c : Channel) : Prop :=
  validUtf8 (strRead 32 c.name) = true ∧
  validUtf8 (strRead 8 c.short_name) = true ∧
  validUtf8 (strRead 12 c.unit) = true

instance (dt : Datatype) : Decidable (intDatatype dt) := by
  unfold intDatatype
  exact inferInstance

instance (dt : Datatype) : Decidable (okDatatype dt) := by
  unfold okDatatype
  exact inferInstance

instance (dt : Datatype) (s : Sample) : Decidable (sampleMatches dt s) := by
  cases dt <;> cases s <;> unfold sampleMatches <;> exact inferInstance

instance (f32enc : ℚ → List Nat) (f32dec : Nat → ℚ) (s : Sample) :
    Decidable (sampleCodecOK f32enc f32dec s) := by
  cases s <;> unfold sampleCodecOK <;> exact inferInstance

instance (c : Channel) (d : List Sample) : Decidable (GoodChannel c d) := by
  unfold GoodChannel
  exact inferInstance

instance (c : Channel) : Decidable (GoodName c) := by
  unfold GoodName
  exact inferInstance

instance (c : Channel) : Decidable (GoodStrings c) := by
  unfold GoodStrings
  exact inferInstance

/-- Bytes one channel occupies on file: its 124-byte record plus its data. -/
def chanSize (cd : Channel × List Sample) : Nat :=
  124 + cd.2.length * cd.1.datatype.size

/-- Total bytes a channel list occupies on file. -/
def totalSize : List (Channel × List Sample) → Nat
  | [] => 0
  | cd :: rest => chanSize cd + totalSize rest

/-- The metadata record the reader decodes back for a channel written at
address `p` whose predecessor record sits at `prev` (0 for the first) and
whose successor sits at `nx` (0 for the last). -/
def mkMeta (prev p nx : Nat) (cd : Channel × List Sample) : ChannelMetadata :=
  { prev_addr := prev, next_addr := nx, data_addr := p + 124,
    data_count := cd.2.length, datatype := cd.1.datatype,
    sample_rate := cd.1.sample_rate, offset := cd.1.offset, mul := cd.1.mul,
    scale := cd.1.scale, dec_places := cd.1.dec_places,
    name := strRead 32 cd.1.name, short_name := strRead 8 cd.1.short_name,
    unit := strRead 12 cd.1.unit }

/-- The list of metadata records read back for channels laid out from
address `p`, the first one's `prev_addr` being `prev`. -/
def metasOf (prev p : Nat) : List (Channel × List Sample) → List ChannelMetadata
  | [] => []
  | cd :: rest =>
    mkMeta prev p (if rest = [] then 0 else p + chanSize cd) cd ::
      metasOf p (p + chanSize cd) rest

/-- The per-record read-back facts: at each record address the reader decodes
the resolved record, and the channel's data block decodes back to the written
samples. -/
def RecordsOK (f32dec : Nat → ℚ) (f : File) :
    Nat → Nat → List (Channel × List Sample) → Prop
  | _, _, [] => True
  | prev, p, cd :: rest =>
    read_channel_metadata f p =
      .ok (mkMeta prev p (if rest = [] then 0 else p + chanSize cd) cd) ∧
    channel_data f32dec f
        (mkMeta prev p (if rest = [] then 0 else p + chanSize cd) cd) =
      some cd.2 ∧
    RecordsOK f32dec f p (p + chanSize cd) rest

theorem entry_expand (f : File) (p : Nat) (fc : FileChannel) :
    writeBytes f p (fileChannelBytes fc) =
      writeBytes (writeBytes (writeBytes (writeBytes (writeBytes (writeBytes
        (writeBytes (writeBytes (writeBytes (writeBytes (writeBytes
        (writeBytes (writeBytes (writeBytes (writeBytes (writeBytes
        (writeBytes f p (u32le fc.prev_addr))
          (p + 4) (u32le fc.next_addr))
          (p + 8) (u32le fc.data_addr))
          (p + 12) (u32le fc.samples))
          (p + 16) (u16le 4))
          (p + 18) (u16le fc.channel.datatype._type))
          (p + 20) (u16le fc.channel.datatype.size))
          (p + 22) (u16le fc.channel.sample_rate))
          (p + 24) (u16le fc.channel.offset))
          (p + 26) (u16le fc.channel.mul))
          (p + 28) (u16le fc.channel.scale))
          (p + 30) (i16le fc.channel.dec_places))
          (p + 32) (write_string 32 fc.channel.name))
          (p + 64) (write_string 8 fc.channel.short_name))
          (p + 72) (write_string 12 fc.channel.unit))
          (p + 84) [201])
          (p + 85) (List.replicate 39 0) := by
  rw [fileChannelBytes]
  simp only [List.append_assoc]
  rw [writeBytes_append, u32le_length]
  rw [writeBytes_append, u32le_length, show p + 4 + 4 = p + 8 from by omega]
  rw [writeBytes_append, u32le_length, show p + 8 + 4 = p + 12 from by omega]
  rw [writeBytes_append, u32le_length, show p + 12 + 4 = p + 16 from by omega]
  rw [writeBytes_append, u16le_length, show p + 16 + 2 = p + 18 from by omega]
  rw [writeBytes_append, u16le_length, show p + 18 + 2 = p + 20 from by omega]
  rw [writeBytes_append, u16le_length, show p + 20 + 2 = p + 22 from by omega]
  rw [writeBytes_append, u16le_length, show p + 22 + 2 = p + 24 from by omega]
  rw [writeBytes_append, u16le_length, show p + 24 + 2 = p + 26 from by omega]
  rw [writeBytes_append, u16le_length, show p + 26 + 2 = p + 28 from by omega]
  rw [writeBytes_append, u16le_length, show p + 28 + 2 = p + 30 from by omega]
  rw [writeBytes_append, i16le_length, show p + 30 + 2 = p + 32 from by omega]
  rw [writeBytes_append, write_string_length,
    show p + 32 + 32 = p + 64 from by omega]
  rw [writeBytes_append, write_string_length,
    show p + 64 + 8 = p + 72 from by omega]
  rw [writeBytes_append, write_string_length,
    show p + 72 + 12 = p + 84 from by omega]
  rw [writeBytes_append, show (List.length [(201 : Nat)]) = 1 from rfl,
    show p + 84 + 1 = p + 85 from by omega]

theorem readStringBytes_write_before {f : File} {b a n : Nat} (bs : List Nat)
    (h : a + n ≤ b) :
    readStringBytes (writeBytes f b bs) a n = readStringBytes f a n :=
  readStringBytes_write_disjoint bs (Or.inl h)

theorem Datatype._type_lt (dt : Datatype) : dt._type < 2 ^ 16 := by
  cases dt <;> norm_num [Datatype._type]

theorem Datatype.size_lt (dt : Datatype) : dt.size < 2 ^ 16 := by
  cases dt <;> norm_num [Datatype.size]

theorem fromTypeAndSize_roundtrip (dt : Datatype) (h : okDatatype dt) :
    Datatype.fromTypeAndSize dt._type dt.size = .ok dt := by
  rcases h with (rfl | rfl | rfl | rfl) | rfl <;> decide

theorem fcb_read_prev (g : File) (p : Nat) (fc : FileChannel)
    (h1 : fc.prev_addr < 2 ^ 32) :
    readU32 (writeBytes g p (fileChannelBytes fc)) (p) = fc.prev_addr := by
  rw [entry_expand]
  refine (readU32_write_before _ (by omega)).trans ?_
  refine (readU32_write_before _ (by omega)).trans ?_
  refine (readU32_write_before _ (by omega)).trans ?_
  refine (readU32_write_before _ (by omega)).trans ?_
  refine (readU32_write_before _ (by omega)).trans ?_
  refine (readU32_write_before _ (by omega)).trans ?_
  refine (readU32_write_before _ (by omega)).trans ?_
  refine (readU32_write_before _ (by omega)).trans ?_
  refine (readU32_write_before _ (by omega)).trans ?_
  refine (readU32_write_before _ (by omega)).trans ?_
  refine (readU32_write_before _ (by omega)).trans ?_
  refine (readU32_write_before _ (by omega)).trans ?_
  refine (readU32_write_before _ (by omega)).trans ?_
  refine (readU32_write_before _ (by omega)).trans ?_
  refine (readU32_write_before _ (by omega)).trans ?_
  refine (readU32_write_before _ (by omega)).trans ?_
  exact readU32_writeBytes_u32le_lt _ _ _ h1

theorem fcb_read_next (g : File) (p : Nat) (fc : FileChannel)
    (h1 : fc.next_addr < 2 ^ 32) :
    readU32 (writeBytes g p (fileChannelBytes fc)) (p + 4) = fc.next_addr := by
  rw [entry_expand]
  refine (readU32_write_before _ (by omega)).trans ?_
  refine (readU32_write_before _ (by omega)).trans ?_
  refine (readU32_write_before _ (by omega)).trans ?_
  refine (readU32_write_before _ (by omega)).trans ?_
  refine (readU32_write_before _ (by omega)).trans ?_
  refine (readU32_write_before _ (by omega)).trans ?_
  refine (readU32_write_before _ (by omega)).trans ?_
  refine (readU32_write_before _ (by omega)).trans ?_
  refine (readU32_write_before _ (by omega)).trans ?_
  refine (readU32_write_before _ (by omega)).trans ?_
  refine (readU32_write_before _ (by omega)).trans ?_
  refine (readU32_write_before _ (by omega)).trans ?_
  refine (readU32_write_before _ (by omega)).trans ?_
  refine (readU32_write_before _ (by omega)).trans ?_
  refine (readU32_write_before _ (by omega)).trans ?_
  exact readU32_writeBytes_u32le_lt _ _ _ h1

theorem fcb_read_data (g : File) (p : Nat) (fc : FileChannel)
    (h1 : fc.data_addr < 2 ^ 32) :
    readU32 (writeBytes g p (fileChannelBytes fc)) (p + 8) = fc.data_addr := by
  rw [entry_expand]
  refine (readU32_write_before _ (by omega)).trans ?_
  refine (readU32_write_before _ (by omega)).trans ?_
  refine (readU32_write_before _ (by omega)).trans ?_
  refine (readU32_write_before _ (by omega)).trans ?_
  refine (readU32_write_before _ (by omega)).trans ?_
  refine (readU32_write_before _ (by omega)).trans ?_
  refine (readU32_write_before _ (by omega)).trans ?_
  refine (readU32_write_before _ (by omega)).trans ?_
  refine (readU32_write_before _ (by omega)).trans ?_
  refine (readU32_write_before _ (by omega)).trans ?_
  refine (readU32_write_before _ (by omega)).trans ?_
  refine (readU32_write_before _ (by omega)).trans ?_
  refine (readU32_write_before _ (by omega)).trans ?_
  refine (readU32_write_before _ (by omega)).trans ?_
  exact readU32_writeBytes_u32le_lt _ _ _ h1

theorem fcb_read_count (g : File) (p : Nat) (fc : FileChannel)
    (h1 : fc.samples < 2 ^ 32) :
    readU32 (writeBytes g p (fileChannelBytes fc)) (p + 12) = fc.samples := by
  rw [entry_expand]
  refine (readU32_write_before _ (by omega)).trans ?_
  refine (readU32_write_before _ (by omega)).trans ?_
  refine (readU32_write_before _ (by omega)).trans ?_
  refine (readU32_write_before _ (by omega)).trans ?_
  refine (readU32_write_before _ (by omega)).trans ?_
  refine (readU32_write_before _ (by omega)).trans ?_
  refine (readU32_write_before _ (by omega)).trans ?_
  refine (readU32_write_before _ (by omega)).trans ?_
  refine (readU32_write_before _ (by omega)).trans ?_
  refine (readU32_write_before _ (by omega)).trans ?_
  refine (readU32_write_before _ (by omega)).trans ?_
  refine (readU32_write_before _ (by omega)).trans ?_
  refine (readU32_write_before _ (by omega)).trans ?_
  exact readU32_writeBytes_u32le_lt _ _ _ h1

theorem fcb_read_type (g : File) (p : Nat) (fc : FileChannel) :
    readU16 (writeBytes g p (fileChannelBytes fc)) (p + 18) = fc.channel.datatype._type := by
  rw [entry_expand]
  refine (readU16_write_before _ (by omega)).trans ?_
  refine (readU16_write_before _ (by omega)).trans ?_
  refine (readU16_write_before _ (by omega)).trans ?_
  refine (readU16_write_before _ (by omega)).trans ?_
  refine (readU16_write_before _ (by omega)).trans ?_
  refine (readU16_write_before _ (by omega)).trans ?_
  refine (readU16_write_before _ (by omega)).trans ?_
  refine (readU16_write_before _ (by omega)).trans ?_
  refine (readU16_write_before _ (by omega)).trans ?_
  refine (readU16_write_before _ (by omega)).trans ?_
  refine (readU16_write_before _ (by omega)).trans ?_
  exact readU16_writeBytes_u16le_lt _ _ _ (Datatype._type_lt _)

theorem fcb_read_size (g : File) (p : Nat) (fc : FileChannel) :
    readU16 (writeBytes g p (fileChannelBytes fc)) (p + 20) = fc.channel.datatype.size := by
  rw [entry_expand]
  refine (readU16_write_before _ (by omega)).trans ?_
  refine (readU16_write_before _ (by omega)).trans ?_
  refine (readU16_write_before _ (by omega)).trans ?_
  refine (readU16_write_before _ (by omega)).trans ?_
  refine (readU16_write_before _ (by omega)).trans ?_
  refine (readU16_write_before _ (by omega)).trans ?_
  refine (readU16_write_before _ (by omega)).trans ?_
  refine (readU16_write_before _ (by omega)).trans ?_
  refine (readU16_write_before _ (by omega)).trans ?_
  refine (readU16_write_before _ (by omega)).trans ?_
  exact readU16_writeBytes_u16le_lt _ _ _ (Datatype.size_lt _)

theorem fcb_read_rate (g : File) (p : Nat) (fc : FileChannel)
    (h1 : fc.channel.sample_rate < 2 ^ 16) :
    readU16 (writeBytes g p (fileChannelBytes fc)) (p + 22) = fc.channel.sample_rate := by
  rw [entry_expand]
  refine (readU16_write_before _ (by omega)).trans ?_
  refine (readU16_write_before _ (by omega)).trans ?_
  refine (readU16_write_before _ (by omega)).trans ?_
  refine (readU16_write_before _ (by omega)).trans ?_
  refine (readU16_write_before _ (by omega)).trans ?_
  refine (readU16_write_before _ (by omega)).trans ?_
  refine (readU16_write_before _ (by omega)).trans ?_
  refine (readU16_write_before _ (by omega)).trans ?_
  refine (readU16_write_before _ (by omega)).trans ?_
  exact readU16_writeBytes_u16le_lt _ _ _ h1

theorem fcb_read_offset (g : File) (p : Nat) (fc : FileChannel)
    (h1 : fc.channel.offset < 2 ^ 16) :
    readU16 (writeBytes g p (fileChannelBytes fc)) (p + 24) = fc.channel.offset := by
  rw [entry_expand]
  refine (readU16_write_before _ (by omega)).trans ?_
  refine (readU16_write_before _ (by omega)).trans ?_
  refine (readU16_write_before _ (by omega)).trans ?_
  refine (readU16_write_before _ (by omega)).trans ?_
  refine (readU16_write_before _ (by omega)).trans ?_
  refine (readU16_write_before _ (by omega)).trans ?_
  refine (readU16_write_before _ (by omega)).trans ?_
  refine (readU16_write_before _ (by omega)).trans ?_
  exact readU16_writeBytes_u16le_lt _ _ _ h1

theorem fcb_read_mul (g : File) (p : Nat) (fc : FileChannel)
    (h1 : fc.channel.mul < 2 ^ 16) :
    readU16 (writeBytes g p (fileChannelBytes fc)) (p + 26) = fc.channel.mul := by
  rw [entry_expand]
  refine (readU16_write_before _ (by omega)).trans ?_
  refine (readU16_write_before _ (by omega)).trans ?_
  refine (readU16_write_before _ (by omega)).trans ?_
  refine (readU16_write_before _ (by omega)).trans ?_
  refine (readU16_write_before _ (by omega)).trans ?_
  refine (readU16_write_before _ (by omega)).trans ?_
  refine (readU16_write_before _ (by omega)).trans ?_
  exact readU16_writeBytes_u16le_lt _ _ _ h1

theorem fcb_read_scale (g : File) (p : Nat) (fc : FileChannel)
    (h1 : fc.channel.scale < 2 ^ 16) :
    readU16 (writeBytes g p (fileChannelBytes fc)) (p + 28) = fc.channel.scale := by
  rw [entry_expand]
  refine (readU16_write_before _ (by omega)).trans ?_
  refine (readU16_write_before _ (by omega)).trans ?_
  refine (readU16_write_before _ (by omega)).trans ?_
  refine (readU16_write_before _ (by omega)).trans ?_
  refine (readU16_write_before _ (by omega)).trans ?_
  refine (readU16_write_before _ (by omega)).trans ?_
  exact readU16_writeBytes_u16le_lt _ _ _ h1

theorem fcb_read_dec (g : File) (p : Nat) (fc : FileChannel)
    (h1 : -(2 ^ 15) ≤ fc.channel.dec_places) (h2 : fc.channel.dec_places < 2 ^ 15) :
    readI16 (writeBytes g p (fileChannelBytes fc)) (p + 30) = fc.channel.dec_places := by
  rw [entry_expand]
  refine (readI16_write_before _ (by omega)).trans ?_
  refine (readI16_write_before _ (by omega)).trans ?_
  refine (readI16_write_before _ (by omega)).trans ?_
  refine (readI16_write_before _ (by omega)).trans ?_
  refine (readI16_write_before _ (by omega)).trans ?_
  exact readI16_writeBytes_i16le _ _ _ h1 h2

theorem fcb_read_name (g : File) (p : Nat) (fc : FileChannel) :
    readStringBytes (writeBytes g p (fileChannelBytes fc)) (p + 32) 32 =
      strRead 32 fc.channel.name := by
  rw [entry_expand]
  refine (readStringBytes_write_before _ (by omega)).trans ?_
  refine (readStringBytes_write_before _ (by omega)).trans ?_
  refine (readStringBytes_write_before _ (by omega)).trans ?_
  refine (readStringBytes_write_before _ (by omega)).trans ?_
  exact readStringBytes_writeBytes_write_string _ _ _ _

theorem fcb_read_short (g : File) (p : Nat) (fc : FileChannel) :
    readStringBytes (writeBytes g p (fileChannelBytes fc)) (p + 64) 8 =
      strRead 8 fc.channel.short_name := by
  rw [entry_expand]
  refine (readStringBytes_write_before _ (by omega)).trans ?_
  refine (readStringBytes_write_before _ (by omega)).trans ?_
  refine (readStringBytes_write_before _ (by omega)).trans ?_
  exact readStringBytes_writeBytes_write_string _ _ _ _

theorem fcb_read_unit (g : File) (p : Nat) (fc : FileChannel) :
    readStringBytes (writeBytes g p (fileChannelBytes fc)) (p + 72) 12 =
      strRead 12 fc.channel.unit := by
  rw [entry_expand]
  refine (readStringBytes_write_before _ (by omega)).trans ?_
  refine (readStringBytes_write_before _ (by omega)).trans ?_
  exact readStringBytes_writeBytes_write_string _ _ _ _

theorem read_string_eq_of_bytes {f : File} {a w : Nat} {s : List Nat}
    (h : readStringBytes f a w = s) (hv : validUtf8 s = true) :
    read_string f a w = .ok s := by
  rw [read_string, h, if_pos hv]

theorem read_string_congr {f g : File} {a n : Nat}
    (h : ∀ i, i < n → f (a + i) = g (a + i)) :
    read_string f a n = read_string g a n := by
  rw [read_string, read_string, readStringBytes_congr h]

/-- Decoding a just-written 124-byte record returns the record, with the
fixed-width strings truncated per `strRead`, provided the truncations are
well-formed UTF-8. -/
theorem decode_entry (g : File) (p : Nat) (fc : FileChannel)
    (h1 : fc.prev_addr < 2 ^ 32) (h2 : fc.next_addr < 2 ^ 32)
    (h3 : fc.data_addr < 2 ^ 32) (h4 : fc.samples < 2 ^ 32)
    (h5 : fc.channel.sample_rate < 2 ^ 16) (h6 : fc.channel.offset < 2 ^ 16)
    (h7 : fc.channel.mul < 2 ^ 16) (h8 : fc.channel.scale < 2 ^ 16)
    (h9 : -(2 ^ 15) ≤ fc.channel.dec_places)
    (h10 : fc.channel.dec_places < 2 ^ 15)
    (hdt : okDatatype fc.channel.datatype)
    (hvn : validUtf8 (strRead 32 fc.channel.name) = true)
    (hvs : validUtf8 (strRead 8 fc.channel.short_name) = true)
    (hvu : validUtf8 (strRead 12 fc.channel.unit) = true) :
    read_channel_metadata (writeBytes g p (fileChannelBytes fc)) p =
      .ok { prev_addr := fc.prev_addr, next_addr := fc.next_addr,
            data_addr := fc.data_addr, data_count := fc.samples,
            datatype := fc.channel.datatype,
            sample_rate := fc.channel.sample_rate,
            offset := fc.channel.offset, mul := fc.channel.mul,
            scale := fc.channel.scale, dec_places := fc.channel.dec_places,
            name := strRead 32 fc.channel.name,
            short_name := strRead 8 fc.channel.short_name,
            unit := strRead 12 fc.channel.unit } := by
  simp only [read_channel_metadata, fcb_read_prev g p fc h1,
    fcb_read_next g p fc h2, fcb_read_data g p fc h3,
    fcb_read_count g p fc h4, fcb_read_type g p fc, fcb_read_size g p fc,
    fcb_read_rate g p fc h5, fcb_read_offset g p fc h6,
    fcb_read_mul g p fc h7, fcb_read_scale g p fc h8,
    fcb_read_dec g p fc h9 h10,
    read_string_eq_of_bytes (fcb_read_name g p fc) hvn,
    read_string_eq_of_bytes (fcb_read_short g p fc) hvs,
    read_string_eq_of_bytes (fcb_read_unit g p fc) hvu,
    fromTypeAndSize_roundtrip _ hdt]

theorem readI16_of_bytes {F : File} {da : Nat} {v : Int}
    (h1 : -(2 ^ 15) ≤ v) (h2 : v < 2 ^ 15)
    (hb0 : F da = (i16le v).getD 0 0) (hb1 : F (da + 1) = (i16le v).getD 1 0) :
    readI16 F da = v := by
  rw [readI16, readU16, hb0, hb1]
  simp only [i16le, u16le, List.getD_cons_zero, List.getD_cons_succ]
  unfold tc16
  omega

theorem readI32_of_bytes {F : File} {da : Nat} {v : Int}
    (h1 : -(2 ^ 31) ≤ v) (h2 : v < 2 ^ 31)
    (hb0 : F da = (i32le v).getD 0 0) (hb1 : F (da + 1) = (i32le v).getD 1 0)
    (hb2 : F (da + 2) = (i32le v).getD 2 0)
    (hb3 : F (da + 3) = (i32le v).getD 3 0) :
    readI32 F da = v := by
  rw [readI32, readU32, hb0, hb1, hb2, hb3]
  simp only [i32le, u32le, List.getD_cons_zero, List.getD_cons_succ]
  unfold tc32
  omega

theorem read_samples_16 (f32enc : ℚ → List Nat) :
    ∀ (d : List Sample) (F : File) (da : Nat),
      (∀ s ∈ d, ∃ v : Int, s = .I16 v ∧ -(2 ^ 15) ≤ v ∧ v < 2 ^ 15) →
      (∀ i, i < (samplesBytes f32enc d).length →
        F (da + i) = (samplesBytes f32enc d).getD i 0) →
      (List.range d.length).map (fun i => Sample.I16 (readI16 F (da + 2 * i)))
        = d := by
  intro d
  induction d with
  | nil => intro F da _ _; rfl
  | cons s rest ih =>
    intro F da hm hreg
    obtain ⟨v, rfl, hv1, hv2⟩ := hm s (by simp)
    have hsb : samplesBytes f32enc (Sample.I16 v :: rest) =
        i16le v ++ samplesBytes f32enc rest := rfl
    rw [hsb] at hreg
    simp only [List.length_append, i16le_length] at hreg
    have hhead : readI16 F (da + 2 * 0) = v := by
      have e0 := hreg 0 (by omega)
      have e1 := hreg 1 (by omega)
      rw [getD_append_left _ _ _ (by rw [i16le_length]; omega)] at e0
      rw [getD_append_left _ _ _ (by rw [i16le_length]; omega)] at e1
      rw [show da + 2 * 0 = da from by omega]
      exact readI16_of_bytes hv1 hv2 (by simpa using e0) e1
    have htail :
        (List.range rest.length).map
          (fun i => Sample.I16 (readI16 F (da + 2 + 2 * i))) = rest := by
      refine ih F (da + 2) (fun s hs => hm s (by simp [hs])) ?_
      intro i hi
      have := hreg (2 + i) (by omega)
      rw [getD_append_right _ _ _ (by rw [i16le_length]; omega)] at this
      rw [show da + 2 + i = da + (2 + i) from by omega, this]
      congr 1
      rw [i16le_length]
      omega
    simp only [List.length_cons, List.range_succ_eq_map, List.map_cons,
      List.map_map]
    rw [hhead]
    congr 1
    refine Eq.trans ?_ htail
    refine List.map_congr_left fun i _ => ?_
    simp only [Function.comp_apply]
    congr 2
    omega

theorem read_samples_32 (f32enc : ℚ → List Nat) :
    ∀ (d : List Sample) (F : File) (da : Nat),
      (∀ s ∈ d, ∃ v : Int, s = .I32 v ∧ -(2 ^ 31) ≤ v ∧ v < 2 ^ 31) →
      (∀ i, i < (samplesBytes f32enc d).length →
        F (da + i) = (samplesBytes f32enc d).getD i 0) →
      (List.range d.length).map (fun i => Sample.I32 (readI32 F (da + 4 * i)))
        = d := by
  intro d
  induction d with
  | nil => intro F da _ _; rfl
  | cons s rest ih =>
    intro F da hm hreg
    obtain ⟨v, rfl, hv1, hv2⟩ := hm s (by simp)
    have hsb : samplesBytes f32enc (Sample.I32 v :: rest) =
        i32le v ++ samplesBytes f32enc rest := rfl
    rw [hsb] at hreg
    simp only [List.length_append, i32le_length] at hreg
    have hhead : readI32 F (da + 4 * 0) = v := by
      have e0 := hreg 0 (by omega)
      have e1 := hreg 1 (by omega)
      have e2 := hreg 2 (by omega)
      have e3 := hreg 3 (by omega)
      rw [getD_append_left _ _ _ (by rw [i32le_length]; omega)] at e0
      rw [getD_append_left _ _ _ (by rw [i32le_length]; omega)] at e1
      rw [getD_append_left _ _ _ (by rw [i32le_length]; omega)] at e2
      rw [getD_append_left _ _ _ (by rw [i32le_length]; omega)] at e3
      rw [show da + 4 * 0 = da from by omega]
      exact readI32_of_bytes hv1 hv2 (by simpa using e0) e1 e2 e3
    have htail :
        (List.range rest.length).map
          (fun i => Sample.I32 (readI32 F (da + 4 + 4 * i))) = rest := by
      refine ih F (da + 4) (fun s hs => hm s (by simp [hs])) ?_
      intro i hi
      have := hreg (4 + i) (by omega)
      rw [getD_append_right _ _ _ (by rw [i32le_length]; omega)] at this
      rw [show da + 4 + i = da + (4 + i) from by omega, this]
      congr 1
      rw [i32le_length]
      omega
    simp only [List.length_cons, List.range_succ_eq_map, List.map_cons,
      List.map_map]
    rw [hhead]
    congr 1
    refine Eq.trans ?_ htail
    refine List.map_congr_left fun i _ => ?_
    simp only [Function.comp_apply]
    congr 2
    omega

theorem sampleMatches_16 {dt : Datatype} {s : Sample}
    (hdt : dt = .I16 ∨ dt = .Beacon16) (h : sampleMatches dt s) :
    ∃ v : Int, s = .I16 v ∧ -(2 ^ 15) ≤ v ∧ v < 2 ^ 15 := by
  rcases hdt with rfl | rfl <;> cases s with
  | I16 v => exact ⟨v, rfl, h.1, h.2⟩
  | I32 v => exact h.elim
  | F32 q => exact h.elim

theorem sampleMatches_32 {dt : Datatype} {s : Sample}
    (hdt : dt = .I32 ∨ dt = .Beacon32) (h : sampleMatches dt s) :
    ∃ v : Int, s = .I32 v ∧ -(2 ^ 31) ≤ v ∧ v < 2 ^ 31 := by
  rcases hdt with rfl | rfl <;> cases s with
  | I16 v => exact h.elim
  | I32 v => exact ⟨v, rfl, h.1, h.2⟩
  | F32 q => exact h.elim

theorem sampleMatches_f32 {dt : Datatype} {s : Sample}
    (hdt : dt = .F32) (h : sampleMatches dt s) : ∃ q : ℚ, s = .F32 q := by
  subst hdt
  cases s with
  | I16 v => exact h.elim
  | I32 v => exact h.elim
  | F32 q => exact ⟨q, rfl⟩

theorem readU32_of_bytes {F : File} {da : Nat} {bs : List Nat}
    (hb0 : F da = bs.getD 0 0) (hb1 : F (da + 1) = bs.getD 1 0)
    (hb2 : F (da + 2) = bs.getD 2 0) (hb3 : F (da + 3) = bs.getD 3 0) :
    readU32 F da = leWord bs := by
  rw [readU32, hb0, hb1, hb2, hb3, leWord]

theorem read_samples_f32 (f32enc : ℚ → List Nat) (f32dec : Nat → ℚ) :
    ∀ (d : List Sample) (F : File) (da : Nat),
      (∀ s ∈ d, ∃ q : ℚ, s = .F32 q) →
      (∀ s ∈ d, sampleCodecOK f32enc f32dec s) →
      (∀ i, i < (samplesBytes f32enc d).length →
        F (da + i) = (samplesBytes f32enc d).getD i 0) →
      (List.range d.length).map
        (fun i => Sample.F32 (f32dec (readU32 F (da + 4 * i)))) = d := by
  intro d
  induction d with
  | nil => intro F da _ _ _; rfl
  | cons s rest ih =>
    intro F da hm hc hreg
    obtain ⟨q, rfl⟩ := hm s (by simp)
    obtain ⟨hq4, hqdec⟩ : (f32enc q).length = 4 ∧
        f32dec (leWord (f32enc q)) = q := hc (Sample.F32 q) (by simp)
    have hsb : samplesBytes f32enc (Sample.F32 q :: rest) =
        f32enc q ++ samplesBytes f32enc rest := rfl
    rw [hsb] at hreg
    simp only [List.length_append, hq4] at hreg
    have hhead : f32dec (readU32 F (da + 4 * 0)) = q := by
      have e0 := hreg 0 (by omega)
      have e1 := hreg 1 (by omega)
      have e2 := hreg 2 (by omega)
      have e3 := hreg 3 (by omega)
      rw [getD_append_left _ _ _ (by rw [hq4]; omega)] at e0
      rw [getD_append_left _ _ _ (by rw [hq4]; omega)] at e1
      rw [getD_append_left _ _ _ (by rw [hq4]; omega)] at e2
      rw [getD_append_left _ _ _ (by rw [hq4]; omega)] at e3
      rw [show da + 4 * 0 = da from by omega,
        readU32_of_bytes (by simpa using e0) e1 e2 e3, hqdec]
    have htail :
        (List.range rest.length).map
          (fun i => Sample.F32 (f32dec (readU32 F (da + 4 + 4 * i)))) =
          rest := by
      refine ih F (da + 4) (fun s hs => hm s (by simp [hs]))
        (fun s hs => hc s (by simp [hs])) ?_
      intro i hi
      have := hreg (4 + i) (by omega)
      rw [getD_append_right _ _ _ (by rw [hq4]; omega)] at this
      rw [show da + 4 + i = da + (4 + i) from by omega, this]
      congr 1
      rw [hq4]
      omega
    simp only [List.length_cons, List.range_succ_eq_map, List.map_cons,
      List.map_map]
    rw [hhead]
    congr 1
    refine Eq.trans ?_ htail
    refine List.map_congr_left fun i _ => ?_
    simp only [Function.comp_apply]
    congr 3
    omega

theorem samplesBytes_length (f32enc : ℚ → List Nat) (f32dec : Nat → ℚ)
    (dt : Datatype) :
    ∀ d : List Sample, okDatatype dt → (∀ s ∈ d, sampleMatches dt s) →
      (∀ s ∈ d, sampleCodecOK f32enc f32dec s) →
      (samplesBytes f32enc d).length = d.length * dt.size := by
  intro d hdt hm hc
  induction d with
  | nil => simp [samplesBytes]
  | cons s rest ih =>
    have hrest := ih (fun x hx => hm x (by simp [hx]))
      (fun x hx => hc x (by simp [hx]))
    have hs := hm s (by simp)
    rcases hdt with (h | h | h | h) | h <;> subst h
    · obtain ⟨v, rfl, -, -⟩ := sampleMatches_16 (Or.inl rfl) hs
      simp only [samplesBytes, List.length_append, i16le_length, hrest,
        List.length_cons, Datatype.size]
      ring
    · obtain ⟨v, rfl, -, -⟩ := sampleMatches_16 (Or.inr rfl) hs
      simp only [samplesBytes, List.length_append, i16le_length, hrest,
        List.length_cons, Datatype.size]
      ring
    · obtain ⟨v, rfl, -, -⟩ := sampleMatches_32 (Or.inl rfl) hs
      simp only [samplesBytes, List.length_append, i32le_length, hrest,
        List.length_cons, Datatype.size]
      ring
    · obtain ⟨v, rfl, -, -⟩ := sampleMatches_32 (Or.inr rfl) hs
      simp only [samplesBytes, List.length_append, i32le_length, hrest,
        List.length_cons, Datatype.size]
      ring
    · obtain ⟨q, rfl⟩ := sampleMatches_f32 rfl hs
      obtain ⟨hq4, -⟩ : (f32enc q).length = 4 ∧
          f32dec (leWord (f32enc q)) = q := hc (Sample.F32 q) (by simp)
      simp only [samplesBytes, List.length_append, hq4, hrest,
        List.length_cons, Datatype.size]
      ring

/-- Decoding a just-written sample block returns the written samples. -/
theorem channel_data_of_region (f32enc : ℚ → List Nat) (f32dec : Nat → ℚ)
    (F : File) (cd : Channel × List Sample) (prev p nx : Nat)
    (hdt : okDatatype cd.1.datatype)
    (hm : ∀ s ∈ cd.2, sampleMatches cd.1.datatype s)
    (hc : ∀ s ∈ cd.2, sampleCodecOK f32enc f32dec s)
    (hreg : ∀ i, i < (samplesBytes f32enc cd.2).length →
      F (p + 124 + i) = (samplesBytes f32enc cd.2).getD i 0) :
    channel_data f32dec F (mkMeta prev p nx cd) = some cd.2 := by
  rcases hdt with (h | h | h | h) | h
  · simp only [channel_data, mkMeta, h]
    congr 1
    exact read_samples_16 f32enc cd.2 F (p + 124)
      (fun s hs => sampleMatches_16 (Or.inl h) (hm s hs)) hreg
  · simp only [channel_data, mkMeta, h]
    congr 1
    exact read_samples_16 f32enc cd.2 F (p + 124)
      (fun s hs => sampleMatches_16 (Or.inr h) (hm s hs)) hreg
  · simp only [channel_data, mkMeta, h]
    congr 1
    exact read_samples_32 f32enc cd.2 F (p + 124)
      (fun s hs => sampleMatches_32 (Or.inl h) (hm s hs)) hreg
  · simp only [channel_data, mkMeta, h]
    congr 1
    exact read_samples_32 f32enc cd.2 F (p + 124)
      (fun s hs => sampleMatches_32 (Or.inr h) (hm s hs)) hreg
  · simp only [channel_data, mkMeta, h]
    congr 1
    exact read_samples_f32 f32enc f32dec cd.2 F (p + 124)
      (fun s hs => sampleMatches_f32 h (hm s hs)) hc hreg

/-- The record base addresses of channels laid out from `p`. -/
def chAddrs (p : Nat) : List (Channel × List Sample) → List Nat
  | [] => []
  | cd :: rest => p :: chAddrs (p + chanSize cd) rest

/-- The data block addresses of channels laid out from `p`. -/
def dataAddrs (p : Nat) : List (Channel × List Sample) → List Nat
  | [] => []
  | cd :: rest => (p + 124) :: dataAddrs (p + chanSize cd) rest

theorem fcb_getD_next (fc : FileChannel) (i : Nat) (h4 : 4 ≤ i) (h8 : i < 8) :
    (fileChannelBytes fc).getD i 0 = (u32le fc.next_addr).getD (i - 4) 0 := by
  simp only [fileChannelBytes, List.append_assoc]
  rw [getD_append_right _ _ _ (by simp only [u32le_length]; omega)]
  rw [getD_append_left _ _ _ (by simp only [u32le_length]; omega)]
  simp only [u32le_length]

theorem fcb_getD_data (fc : FileChannel) (i : Nat) (h8 : 8 ≤ i)
    (h12 : i < 12) :
    (fileChannelBytes fc).getD i 0 = (u32le fc.data_addr).getD (i - 8) 0 := by
  simp only [fileChannelBytes, List.append_assoc]
  rw [getD_append_right _ _ _ (by simp only [u32le_length]; omega)]
  rw [getD_append_right _ _ _ (by simp only [u32le_length]; omega)]
  rw [getD_append_left _ _ _ (by simp only [u32le_length]; omega)]
  simp only [u32le_length]
  congr 1

theorem fcb_getD_other (fc : FileChannel) (nx da i : Nat)
    (h : i < 4 ∨ 12 ≤ i) :
    (fileChannelBytes fc).getD i 0 =
      (fileChannelBytes
        { fc with next_addr := nx, data_addr := da }).getD i 0 := by
  rcases h with h | h
  · simp only [fileChannelBytes, List.append_assoc]
    conv_lhs =>
      rw [getD_append_left _ _ _ (by simp only [u32le_length]; omega)]
    conv_rhs =>
      rw [getD_append_left _ _ _ (by simp only [u32le_length]; omega)]
  · simp only [fileChannelBytes, List.append_assoc]
    conv_lhs =>
      rw [getD_append_right _ _ _ (by simp only [u32le_length]; omega)]
      rw [getD_append_right _ _ _ (by simp only [u32le_length]; omega)]
      rw [getD_append_right _ _ _ (by simp only [u32le_length]; omega)]
    conv_rhs =>
      rw [getD_append_right _ _ _ (by simp only [u32le_length]; omega)]
      rw [getD_append_right _ _ _ (by simp only [u32le_length]; omega)]
      rw [getD_append_right _ _ _ (by simp only [u32le_length]; omega)]
    rfl

theorem read_channel_metadata_congr {f g : File} {p : Nat}
    (h : ∀ i, i < 124 → f (p + i) = g (p + i)) :
    read_channel_metadata f p = read_channel_metadata g p := by
  have hoff : ∀ k w, k + w ≤ 124 → ∀ i, i < w → f (p + k + i) = g (p + k + i) := by
    intro k w hindex i hi
    rw [show p + k + i = p + (k + i) from by omega]
    exact h (k + i) (by omega)
  have e1 : readU32 f p = readU32 g p :=
    readU32_congr fun i hi => h i (by omega)
  have e2 : readU32 f (p + 4) = readU32 g (p + 4) :=
    readU32_congr (hoff 4 4 (by omega))
  have e3 : readU32 f (p + 8) = readU32 g (p + 8) :=
    readU32_congr (hoff 8 4 (by omega))
  have e4 : readU32 f (p + 12) = readU32 g (p + 12) :=
    readU32_congr (hoff 12 4 (by omega))
  have e5 : readU16 f (p + 18) = readU16 g (p + 18) :=
    readU16_congr (hoff 18 2 (by omega))
  have e6 : readU16 f (p + 20) = readU16 g (p + 20) :=
    readU16_congr (hoff 20 2 (by omega))
  have e7 : readU16 f (p + 22) = readU16 g (p + 22) :=
    readU16_congr (hoff 22 2 (by omega))
  have e8 : readU16 f (p + 24) = readU16 g (p + 24) :=
    readU16_congr (hoff 24 2 (by omega))
  have e9 : readU16 f (p + 26) = readU16 g (p + 26) :=
    readU16_congr (hoff 26 2 (by omega))
  have e10 : readU16 f (p + 28) = readU16 g (p + 28) :=
    readU16_congr (hoff 28 2 (by omega))
  have e11 : readI16 f (p + 30) = readI16 g (p + 30) :=
    readI16_congr (hoff 30 2 (by omega))
  have e12 : read_string f (p + 32) 32 = read_string g (p + 32) 32 :=
    read_string_congr (hoff 32 32 (by omega))
  have e13 : read_string f (p + 64) 8 = read_string g (p + 64) 8 :=
    read_string_congr (hoff 64 8 (by omega))
  have e14 : read_string f (p + 72) 12 = read_string g (p + 72) 12 :=
    read_string_congr (hoff 72 12 (by omega))
  simp only [read_channel_metadata, e1, e2, e3, e4, e5, e6, e7, e8, e9, e10,
    e11, e12, e13, e14]

theorem channel_data_congr (f32dec : Nat → ℚ) {f g : File}
    (m : ChannelMetadata)
    (h : ∀ i, i < m.data_count * m.datatype.size →
      f (m.data_addr + i) = g (m.data_addr + i)) :
    channel_data f32dec f m = channel_data f32dec g m := by
  have hsz : ∀ w, m.datatype.size = w → ∀ k, k < m.data_count →
      ∀ j, j < w → f (m.data_addr + w * k + j) = g (m.data_addr + w * k + j) := by
    intro w hw k hk j hj
    rw [show m.data_addr + w * k + j = m.data_addr + (w * k + j) from by omega]
    refine h _ ?_
    have e1 : w * (k + 1) = w * k + w := by ring
    have e2 : w * (k + 1) ≤ w * m.data_count := Nat.mul_le_mul_left w hk
    have e3 : w * m.data_count = m.data_count * m.datatype.size := by
      rw [hw, Nat.mul_comm]
    omega
  cases hdt : m.datatype
  case F16 => simp only [channel_data, hdt]
  case Invalid => simp only [channel_data, hdt]
  case I16 =>
    simp only [channel_data, hdt]
    congr 1
    refine List.map_congr_left fun k hk => ?_
    congr 1
    refine readI16_congr fun j hj => ?_
    exact hsz 2 (by rw [hdt]; decide) k (List.mem_range.mp hk) j hj
  case Beacon16 =>
    simp only [channel_data, hdt]
    congr 1
    refine List.map_congr_left fun k hk => ?_
    congr 1
    refine readI16_congr fun j hj => ?_
    exact hsz 2 (by rw [hdt]; decide) k (List.mem_range.mp hk) j hj
  case I32 =>
    simp only [channel_data, hdt]
    congr 1
    refine List.map_congr_left fun k hk => ?_
    congr 1
    refine readI32_congr fun j hj => ?_
    exact hsz 4 (by rw [hdt]; decide) k (List.mem_range.mp hk) j hj
  case Beacon32 =>
    simp only [channel_data, hdt]
    congr 1
    refine List.map_congr_left fun k hk => ?_
    congr 1
    refine readI32_congr fun j hj => ?_
    exact hsz 4 (by rw [hdt]; decide) k (List.mem_range.mp hk) j hj
  case F32 =>
    simp only [channel_data, hdt]
    congr 1
    refine List.map_congr_left fun k hk => ?_
    congr 2
    refine readU32_congr fun j hj => ?_
    exact hsz 4 (by rw [hdt]; decide) k (List.mem_range.mp hk) j hj

/-- One `write_channel`/`write_channel_data` step, with its writes spelled
out: record at the write head, back-patch of the previous record's
`next_addr`, sample payload, back-patch of the own `data_addr`. -/
theorem writeOne_eq (f32enc : ℚ → List Nat) (st : WriterState)
    (cd : Channel × List Sample) :
    writeOne f32enc st cd =
      { file :=
          writeBytes
            (writeBytes
              (if (st.channels.getLast?).getD 0 = 0 then
                writeBytes st.file st.write_pos
                  (fileChannelBytes
                    { prev_addr := (st.channels.getLast?).getD 0,
                      next_addr := 0, data_addr := 0,
                      samples := cd.2.length % 2 ^ 32, channel := cd.1 })
              else
                writeBytes
                  (writeBytes st.file st.write_pos
                    (fileChannelBytes
                      { prev_addr := (st.channels.getLast?).getD 0,
                        next_addr := 0, data_addr := 0,
                        samples := cd.2.length % 2 ^ 32, channel := cd.1 }))
                  (FileAddr.add ((st.channels.getLast?).getD 0) 4)
                  (u32le st.write_pos))
              (FileAddr.add st.write_pos 124) (samplesBytes f32enc cd.2))
            (FileAddr.add st.write_pos 8)
            (u32le (FileAddr.add st.write_pos 124)),
        channels := st.channels ++ [st.write_pos],
        channel_data_blocks :=
          st.channel_data_blocks ++ [FileAddr.add st.write_pos 124],
        write_pos := FileAddr.add (FileAddr.add st.write_pos 124)
          (cd.2.length % 2 ^ 32 * cd.1.datatype.size % 2 ^ 32) } := by
  show LDWriter.write_channel_data f32enc
    (LDWriter.write_channel st cd.1 cd.2).1
    (LDWriter.write_channel st cd.1 cd.2).2 cd.2 = _
  rw [LDWriter.write_channel_data, LDWriter.write_channel]
  simp only [FileChannel.NEXT_ADDR_OFFSET, FileChannel.DATA_ADDR_OFFSET,
    FileChannel.ENTRY_SIZE, FileChannel.data_size, getD_concat]

theorem writeOne_channels (f32enc : ℚ → List Nat) (st : WriterState)
    (cd : Channel × List Sample) :
    (writeOne f32enc st cd).channels = st.channels ++ [st.write_pos] := by
  rw [writeOne_eq]

theorem writeOne_blocks (f32enc : ℚ → List Nat) (st : WriterState)
    (cd : Channel × List Sample) :
    (writeOne f32enc st cd).channel_data_blocks =
      st.channel_data_blocks ++ [FileAddr.add st.write_pos 124] := by
  rw [writeOne_eq]

theorem writeOne_write_pos (f32enc : ℚ → List Nat) (st : WriterState)
    (cd : Channel × List Sample) :
    (writeOne f32enc st cd).write_pos =
      FileAddr.add (FileAddr.add st.write_pos 124)
        (cd.2.length % 2 ^ 32 * cd.1.datatype.size % 2 ^ 32) := by
  rw [writeOne_eq]

theorem writeOne_file (f32enc : ℚ → List Nat) (st : WriterState)
    (cd : Channel × List Sample) :
    (writeOne f32enc st cd).file =
      writeBytes
        (writeBytes
          (if (st.channels.getLast?).getD 0 = 0 then
            writeBytes st.file st.write_pos
              (fileChannelBytes
                { prev_addr := (st.channels.getLast?).getD 0,
                  next_addr := 0, data_addr := 0,
                  samples := cd.2.length % 2 ^ 32, channel := cd.1 })
          else
            writeBytes
              (writeBytes st.file st.write_pos
                (fileChannelBytes
                  { prev_addr := (st.channels.getLast?).getD 0,
                    next_addr := 0, data_addr := 0,
                    samples := cd.2.length % 2 ^ 32, channel := cd.1 }))
              (FileAddr.add ((st.channels.getLast?).getD 0) 4)
              (u32le st.write_pos))
          (FileAddr.add st.write_pos 124) (samplesBytes f32enc cd.2))
        (FileAddr.add st.write_pos 8)
        (u32le (FileAddr.add st.write_pos 124)) := by
  rw [writeOne_eq]

theorem writeBytes_hit {x a : Nat} (bs : List Nat) (f : File)
    (h : a ≤ x ∧ x < a + bs.length) :
    writeBytes f a bs x = bs.getD (x - a) 0 := by
  rw [writeBytes_eq, if_pos h]

theorem fcb_getD_other2 (pr n1 d1 n2 d2 cnt : Nat) (c : Channel) (i : Nat)
    (h : i < 4 ∨ 12 ≤ i) :
    (fileChannelBytes ⟨pr, n1, d1, cnt, c⟩).getD i 0 =
      (fileChannelBytes ⟨pr, n2, d2, cnt, c⟩).getD i 0 :=
  fcb_getD_other ⟨pr, n1, d1, cnt, c⟩ n2 d2 i h

/-- The invariant of the incremental writer: folding
`write_channel`/`write_channel_data` over a channel list records the expected
addresses, advances the write head by the layout size, leaves the file below
the initial write head untouched (except the back-patched `next_addr` window
of the previously written record), and lays down records and payloads that
read back as the resolved metadata and the original samples. -/
theorem processAll (f32enc : ℚ → List Nat) (f32dec : Nat → ℚ) :
    ∀ (cds : List (Channel × List Sample)) (st : WriterState) (prev : Nat),
      prev = (st.channels.getLast?).getD 0 →
      (∀ cd ∈ cds, GoodChannel cd.1 cd.2) →
      (∀ cd ∈ cds, GoodStrings cd.1) →
      (∀ cd ∈ cds, ∀ s ∈ cd.2, sampleCodecOK f32enc f32dec s) →
      st.write_pos + totalSize cds < 2 ^ 32 →
      0 < st.write_pos →
      (prev = 0 ∨ prev + 8 ≤ st.write_pos) →
      (List.foldl (writeOne f32enc) st cds).channels =
          st.channels ++ chAddrs st.write_pos cds ∧
      (List.foldl (writeOne f32enc) st cds).channel_data_blocks =
          st.channel_data_blocks ++ dataAddrs st.write_pos cds ∧
      (List.foldl (writeOne f32enc) st cds).write_pos =
          st.write_pos + totalSize cds ∧
      (∀ x, x < st.write_pos → (prev = 0 ∨ x < prev + 4 ∨ prev + 8 ≤ x) →
        (List.foldl (writeOne f32enc) st cds).file x = st.file x) ∧
      (cds ≠ [] → prev ≠ 0 → ∀ x, prev + 4 ≤ x → x < prev + 8 →
        (List.foldl (writeOne f32enc) st cds).file x =
          (u32le st.write_pos).getD (x - (prev + 4)) 0) ∧
      RecordsOK f32dec (List.foldl (writeOne f32enc) st cds).file prev
        st.write_pos cds := by
  intro cds
  induction cds with
  | nil =>
    intro st prev hprev hg hstr hcodec hb hp hpv
    refine ⟨by simp [chAddrs], by simp [dataAddrs], by simp [totalSize],
      ?_, ?_, ?_⟩
    · intro x hx hcase
      rfl
    · intro hne
      exact absurd rfl hne
    · exact trivial
  | cons cd rest ih =>
    intro st prev hprev hg hstr hcodec hb hp hpv
    obtain ⟨hdt, hmatch, hrate, hoff, hmul, hscale, hdp1, hdp2⟩ :=
      hg cd (by simp)
    obtain ⟨hvn, hvs, hvu⟩ := hstr cd (by simp)
    have hccd : ∀ s ∈ cd.2, sampleCodecOK f32enc f32dec s :=
      hcodec cd (by simp)
    have hgrest : ∀ x ∈ rest, GoodChannel x.1 x.2 :=
      fun x hx => hg x (by simp [hx])
    have hstrrest : ∀ x ∈ rest, GoodStrings x.1 :=
      fun x hx => hstr x (by simp [hx])
    have hcodecrest : ∀ x ∈ rest, ∀ s ∈ x.2, sampleCodecOK f32enc f32dec s :=
      fun x hx => hcodec x (by simp [hx])
    have hszpos : 2 ≤ cd.1.datatype.size := by
      rcases hdt with (h | h | h | h) | h <;> rw [h] <;> decide
    simp only [totalSize] at hb
    have hcseq : chanSize cd = 124 + cd.2.length * cd.1.datatype.size := rfl
    have hLle : cd.2.length ≤ cd.2.length * cd.1.datatype.size :=
      Nat.le_mul_of_pos_right _ (by omega)
    have hLmod : cd.2.length % 2 ^ 32 = cd.2.length :=
      Nat.mod_eq_of_lt (by omega)
    have hds : cd.2.length % 2 ^ 32 * cd.1.datatype.size % 2 ^ 32 =
        cd.2.length * cd.1.datatype.size := by
      rw [hLmod]
      exact Nat.mod_eq_of_lt (by omega)
    have ha1 : FileAddr.add st.write_pos 124 = st.write_pos + 124 :=
      FileAddr.add_eq _ _ (by omega)
    have ha2 : FileAddr.add (st.write_pos + 124)
        (cd.2.length % 2 ^ 32 * cd.1.datatype.size % 2 ^ 32) =
        st.write_pos + chanSize cd := by
      rw [hds, FileAddr.add_eq _ _ (by omega), hcseq]
      omega
    have ha3 : FileAddr.add st.write_pos 8 = st.write_pos + 8 :=
      FileAddr.add_eq _ _ (by omega)
    have h1c : (writeOne f32enc st cd).channels =
        st.channels ++ [st.write_pos] := writeOne_channels f32enc st cd
    have h1b : (writeOne f32enc st cd).channel_data_blocks =
        st.channel_data_blocks ++ [st.write_pos + 124] := by
      rw [writeOne_blocks, ha1]
    have h1p : (writeOne f32enc st cd).write_pos =
        st.write_pos + chanSize cd := by
      rw [writeOne_write_pos, ha1, ha2]
    have h1f : (writeOne f32enc st cd).file =
        writeBytes
          (writeBytes
            (if prev = 0 then
              writeBytes st.file st.write_pos
                (fileChannelBytes
                  ⟨prev, 0, 0, cd.2.length, cd.1⟩)
            else
              writeBytes
                (writeBytes st.file st.write_pos
                  (fileChannelBytes
                    ⟨prev, 0, 0, cd.2.length, cd.1⟩))
                (FileAddr.add prev 4) (u32le st.write_pos))
            (st.write_pos + 124) (samplesBytes f32enc cd.2))
          (st.write_pos + 8) (u32le (st.write_pos + 124)) := by
      rw [writeOne_file, ← hprev, ha1, ha3, hLmod]
    have hlast1 : st.write_pos =
        (((writeOne f32enc st cd).channels).getLast?).getD 0 := by
      rw [h1c, List.getLast?_concat]
      rfl
    obtain ⟨ihA, ihB, ihC, ihD, ihD2, ihE⟩ :=
      ih (writeOne f32enc st cd) st.write_pos hlast1 hgrest hstrrest
        hcodecrest (by rw [h1p, hcseq]; omega) (by rw [h1p]; omega)
        (Or.inr (by rw [h1p, hcseq]; omega))
    rw [List.foldl_cons]
    have hra : ∀ i, i < 124 →
        (List.foldl (writeOne f32enc) (writeOne f32enc st cd) rest).file
            (st.write_pos + i) =
          (fileChannelBytes
            ⟨prev, if rest = [] then 0 else st.write_pos + chanSize cd,
              st.write_pos + 124, cd.2.length, cd.1⟩).getD i 0 := by
      intro i hi
      by_cases hwin : 4 ≤ i ∧ i < 8
      · rw [fcb_getD_next _ _ hwin.1 hwin.2]
        by_cases hrest : rest = []
        · subst hrest
          rw [if_pos rfl]
          simp only [List.foldl_nil]
          rw [h1f]
          rw [writeBytes_lt _ _ (by omega)]
          rw [writeBytes_lt _ _ (by omega)]
          by_cases hz : prev = 0
          · rw [if_pos hz,
              writeBytes_hit _ _
                ⟨by omega, by rw [fileChannelBytes_length]; omega⟩,
              show st.write_pos + i - st.write_pos = i from by omega,
              fcb_getD_next _ _ hwin.1 hwin.2]
          · have hle := hpv.resolve_left hz
            have ha4 : FileAddr.add prev 4 = prev + 4 :=
              FileAddr.add_eq _ _ (by omega)
            rw [if_neg hz, ha4,
              writeBytes_out _ _ (by rw [u32le_length]; omega),
              writeBytes_hit _ _
                ⟨by omega, by rw [fileChannelBytes_length]; omega⟩,
              show st.write_pos + i - st.write_pos = i from by omega,
              fcb_getD_next _ _ hwin.1 hwin.2]
        · rw [if_neg hrest]
          rw [ihD2 hrest (by omega) (st.write_pos + i) (by omega) (by omega),
            h1p, show st.write_pos + i - (st.write_pos + 4) = i - 4 from
              by omega]
      · by_cases hdat : 8 ≤ i ∧ i < 12
        · rw [fcb_getD_data _ _ hdat.1 hdat.2]
          rw [ihD (st.write_pos + i) (by rw [h1p, hcseq]; omega)
            (Or.inr (Or.inr (by omega)))]
          rw [h1f]
          rw [writeBytes_hit _ _ ⟨by omega, by rw [u32le_length]; omega⟩,
            show st.write_pos + i - (st.write_pos + 8) = i - 8 from by omega]
        · rw [← fcb_getD_other2 prev 0 0
            (if rest = [] then 0 else st.write_pos + chanSize cd)
            (st.write_pos + 124) cd.2.length cd.1 i (by omega)]
          rw [ihD (st.write_pos + i) (by rw [h1p, hcseq]; omega)
            (by omega)]
          rw [h1f]
          rw [writeBytes_out _ _ (by rw [u32le_length]; omega)]
          rw [writeBytes_lt _ _ (by omega)]
          by_cases hz : prev = 0
          · rw [if_pos hz,
              writeBytes_hit _ _
                ⟨by omega, by rw [fileChannelBytes_length]; omega⟩,
              show st.write_pos + i - st.write_pos = i from by omega]
          · have hle := hpv.resolve_left hz
            have ha4 : FileAddr.add prev 4 = prev + 4 :=
              FileAddr.add_eq _ _ (by omega)
            rw [if_neg hz, ha4,
              writeBytes_out _ _ (by rw [u32le_length]; omega),
              writeBytes_hit _ _
                ⟨by omega, by rw [fileChannelBytes_length]; omega⟩,
              show st.write_pos + i - st.write_pos = i from by omega]
    have hrb : ∀ i, i < (samplesBytes f32enc cd.2).length →
        (List.foldl (writeOne f32enc) (writeOne f32enc st cd) rest).file
            (st.write_pos + 124 + i) =
          (samplesBytes f32enc cd.2).getD i 0 := by
      intro i hi
      have hlen : (samplesBytes f32enc cd.2).length =
          cd.2.length * cd.1.datatype.size :=
        samplesBytes_length f32enc f32dec cd.1.datatype cd.2 hdt hmatch hccd
      rw [hlen] at hi
      rw [ihD (st.write_pos + 124 + i) (by rw [h1p, hcseq]; omega)
        (Or.inr (Or.inr (by omega)))]
      rw [h1f]
      rw [writeBytes_out _ _ (by rw [u32le_length]; omega)]
      rw [writeBytes_hit _ _ ⟨by omega, by rw [hlen]; omega⟩,
        show st.write_pos + 124 + i - (st.write_pos + 124) = i from by omega]
    have hmeta : read_channel_metadata
        (List.foldl (writeOne f32enc) (writeOne f32enc st cd) rest).file
        st.write_pos =
        .ok (mkMeta prev st.write_pos
          (if rest = [] then 0 else st.write_pos + chanSize cd) cd) := by
      have hagree := read_channel_metadata_congr
        (f := (List.foldl (writeOne f32enc) (writeOne f32enc st cd) rest).file)
        (g := writeBytes (fun _ => 0) st.write_pos
          (fileChannelBytes
            ⟨prev, if rest = [] then 0 else st.write_pos + chanSize cd,
              st.write_pos + 124, cd.2.length, cd.1⟩))
        (p := st.write_pos) ?_
      · rw [hagree]
        refine (decode_entry _ st.write_pos
          ⟨prev, if rest = [] then 0 else st.write_pos + chanSize cd,
            st.write_pos + 124, cd.2.length, cd.1⟩
          (show prev < 2 ^ 32 by omega)
          (show (if rest = [] then 0 else st.write_pos + chanSize cd) <
              2 ^ 32 by split_ifs <;> omega)
          (show st.write_pos + 124 < 2 ^ 32 by omega)
          (show cd.2.length < 2 ^ 32 by omega)
          (show cd.1.sample_rate < 2 ^ 16 by omega)
          (show cd.1.offset < 2 ^ 16 by omega)
          (show cd.1.mul < 2 ^ 16 by omega)
          (show cd.1.scale < 2 ^ 16 by omega)
          (show -(2 ^ 15) ≤ cd.1.dec_places by omega)
          (show cd.1.dec_places < 2 ^ 15 by omega)
          (show okDatatype cd.1.datatype from hdt)
          (show validUtf8 (strRead 32 cd.1.name) = true from hvn)
          (show validUtf8 (strRead 8 cd.1.short_name) = true from hvs)
          (show validUtf8 (strRead 12 cd.1.unit) = true from hvu)).trans ?_
        rfl
      · intro i hi
        rw [writeBytes_hit _ _
            ⟨by omega, by rw [fileChannelBytes_length]; omega⟩,
          show st.write_pos + i - st.write_pos = i from by omega]
        exact hra i hi
    have hdata : channel_data f32dec
        (List.foldl (writeOne f32enc) (writeOne f32enc st cd) rest).file
        (mkMeta prev st.write_pos
          (if rest = [] then 0 else st.write_pos + chanSize cd) cd) =
        some cd.2 :=
      channel_data_of_region f32enc f32dec _ cd prev st.write_pos _
        hdt hmatch hccd hrb
    refine ⟨?_, ?_, ?_, ?_, ?_, ?_⟩
    · rw [ihA, h1c, h1p]
      simp [chAddrs]
    · rw [ihB, h1b, h1p]
      simp [dataAddrs]
    · rw [ihC, h1p]
      simp only [totalSize]
      omega
    · intro x hx hcase
      rw [ihD x (by rw [h1p, hcseq]; omega) (Or.inr (Or.inl (by omega)))]
      by_cases hz : prev = 0
      · rw [h1f, if_pos hz, writeBytes_lt _ _ (by omega),
          writeBytes_lt _ _ (by omega), writeBytes_lt _ _ (by omega)]
      · have hle := hpv.resolve_left hz
        have ha4 : FileAddr.add prev 4 = prev + 4 :=
          FileAddr.add_eq _ _ (by omega)
        have hwin : x < prev + 4 ∨ prev + 8 ≤ x := by
          rcases hcase with h | h | h
          · exact absurd h hz
          · exact Or.inl h
          · exact Or.inr h
        rw [h1f, if_neg hz, ha4, writeBytes_lt _ _ (by omega),
          writeBytes_lt _ _ (by omega),
          writeBytes_out _ _ (by rw [u32le_length]; omega),
          writeBytes_lt _ _ (by omega)]
    · intro hne hprev0 x hx1 hx2
      have hle : prev + 8 ≤ st.write_pos := hpv.resolve_left hprev0
      have ha4 : FileAddr.add prev 4 = prev + 4 :=
        FileAddr.add_eq _ _ (by omega)
      rw [ihD x (by rw [h1p, hcseq]; omega) (Or.inr (Or.inl (by omega)))]
      rw [h1f, if_neg hprev0, ha4, writeBytes_lt _ _ (by omega),
        writeBytes_lt _ _ (by omega),
        writeBytes_hit _ _ ⟨by omega, by rw [u32le_length]; omega⟩]
    · exact ⟨hmeta, hdata, h1p ▸ ihE⟩

theorem listMin_mem : ∀ (l : List Nat) (m : Nat), listMin l = some m → m ∈ l := by
  intro l
  induction l with
  | nil =>
    intro m h
    simp [listMin] at h
  | cons x xs ih =>
    intro m h
    simp only [listMin] at h
    cases hx : listMin xs with
    | none =>
      rw [hx] at h
      simp only [Option.some_inj] at h
      exact h ▸ List.mem_cons_self x xs
    | some k =>
      rw [hx] at h
      simp only [Option.some_inj] at h
      have h' : min x k = m := h
      rcases Nat.le_total x k with hle | hle
      · rw [Nat.min_eq_left hle] at h'
        exact h' ▸ List.mem_cons_self x xs
      · rw [Nat.min_eq_right hle] at h'
        exact h' ▸ List.mem_cons_of_mem x (ih k hx)

theorem listMin_cons_of_lb (l : List Nat) (x : Nat)
    (hlb : ∀ a ∈ l, x ≤ a) : listMin (x :: l) = some x := by
  simp only [listMin]
  cases hx : listMin l with
  | none => rfl
  | some m =>
    show some (min x m) = some x
    rw [Nat.min_eq_left (hlb m (listMin_mem l m hx))]

theorem chAddrs_lb : ∀ (cds : List (Channel × List Sample)) (p a : Nat),
    a ∈ chAddrs p cds → p ≤ a := by
  intro cds
  induction cds with
  | nil =>
    intro p a h
    simp [chAddrs] at h
  | cons cd rest ih =>
    intro p a h
    simp only [chAddrs, List.mem_cons] at h
    rcases h with h | h
    · omega
    · have := ih (p + chanSize cd) a h
      omega

theorem dataAddrs_lb : ∀ (cds : List (Channel × List Sample)) (p a : Nat),
    a ∈ dataAddrs p cds → p + 124 ≤ a := by
  intro cds
  induction cds with
  | nil =>
    intro p a h
    simp [dataAddrs] at h
  | cons cd rest ih =>
    intro p a h
    simp only [dataAddrs, List.mem_cons] at h
    rcases h with h | h
    · omega
    · have h124 : 124 ≤ chanSize cd := by
        simp only [chanSize]
        omega
      have := ih (p + chanSize cd) a h
      omega

/-- The per-record read-back facts survive writes confined to the first 16
bytes of the file (the header pointer back-patches of `finish`). -/
theorem RecordsOK_mono (f32dec : Nat → ℚ) {f g : File}
    (hfg : ∀ x, 16 ≤ x → f x = g x) :
    ∀ (cds : List (Channel × List Sample)) (prev p : Nat), 16 ≤ p →
      RecordsOK f32dec f prev p cds → RecordsOK f32dec g prev p cds := by
  intro cds
  induction cds with
  | nil =>
    intro prev p hp h
    exact trivial
  | cons cd rest ih =>
    intro prev p hp h
    obtain ⟨h1, h2, h3⟩ := h
    refine ⟨?_, ?_, ih p (p + chanSize cd) (by omega) h3⟩
    · exact (read_channel_metadata_congr
        (fun i hi => hfg (p + i) (by omega))).symm.trans h1
    · exact (channel_data_congr f32dec
        (mkMeta prev p (if rest = [] then 0 else p + chanSize cd) cd)
        (fun i hi =>
          hfg _ (show 16 ≤ p + 124 + i by omega))).symm.trans h2

/-- Walking the linked record list under the per-record read-back facts
yields the resolved metadata list (with enough fuel). -/
theorem readChannels_walk (f32dec : Nat → ℚ) (F : File) :
    ∀ (cds : List (Channel × List Sample)) (prev p fuel : Nat),
      0 < p → cds.length < fuel →
      RecordsOK f32dec F prev p cds →
      readChannelsAux F fuel (if cds = [] then 0 else p) =
        some (.ok (metasOf prev p cds)) := by
  intro cds
  induction cds with
  | nil =>
    intro prev p fuel hp hf _
    match fuel, hf with
    | f + 1, _ => simp [readChannelsAux, metasOf]
  | cons cd rest ih =>
    intro prev p fuel hp hf hrec
    obtain ⟨h1, h2, h3⟩ := hrec
    match fuel, hf with
    | f + 1, hf =>
      rw [if_neg (by simp)]
      have hfr : rest.length < f := by
        simp only [List.length_cons] at hf
        omega
      have hnext := ih p (p + chanSize cd) f (by omega) hfr h3
      simp only [readChannelsAux, if_neg (show ¬ p = 0 from by omega), h1]
      rw [show (mkMeta prev p (if rest = [] then 0 else p + chanSize cd)
          cd).next_addr = (if rest = [] then 0 else p + chanSize cd) from rfl]
      rw [hnext]
      simp [metasOf]

theorem takeWhile_ne_zero_eq_self :
    ∀ (t : List Nat), (∀ b ∈ t, b ≠ 0) →
      (t.takeWhile fun c => c ≠ 0) = t := by
  intro t
  induction t with
  | nil =>
    intro _
    rfl
  | cons a t iht =>
    intro h
    have ha : a ≠ 0 := h a (List.mem_cons_self a t)
    simp only [List.takeWhile_cons]
    rw [if_pos (decide_eq_true ha), iht fun b hb => h b (List.mem_cons_of_mem a hb)]

theorem strRead_eq_self (w : Nat) (s : List Nat) (hlen : s.length ≤ w)
    (hnz : ∀ b ∈ s, b ≠ 0) : strRead w s = s := by
  rw [strRead, List.take_of_length_le hlen, takeWhile_ne_zero_eq_self s hnz]

/-- Under the per-record read-back facts, the resolved metadata list agrees
with the written channels field for field, reproduces the data, and decodes
each sample to the same engineering value. -/
theorem metasOf_spec (f32dec : Nat → ℚ) (F : File) :
    ∀ (cds : List (Channel × List Sample)) (prev p : Nat),
      (∀ cd ∈ cds, GoodName cd.1) →
      RecordsOK f32dec F prev p cds →
      List.Forall₂
        (fun (m : ChannelMetadata) (cd : Channel × List Sample) =>
          m.name = cd.1.name ∧ m.sample_rate = cd.1.sample_rate ∧
          m.offset = cd.1.offset ∧ m.mul = cd.1.mul ∧
          m.scale = cd.1.scale ∧ m.dec_places = cd.1.dec_places ∧
          channel_data f32dec F m = some cd.2 ∧
          ∀ s ∈ cd.2, Sample.decode_f64 s m.toChannel =
            Sample.decode_f64 s cd.1)
        (metasOf prev p cds) cds := by
  intro cds
  induction cds with
  | nil =>
    intro prev p _ _
    exact List.Forall₂.nil
  | cons cd rest ih =>
    intro prev p hg hrec
    obtain ⟨h1, h2, h3⟩ := hrec
    obtain ⟨hnlen, hnz⟩ := hg cd (by simp)
    refine List.Forall₂.cons ⟨?_, rfl, rfl, rfl, rfl, rfl, h2, ?_⟩
      (ih p (p + chanSize cd) (fun x hx => hg x (by simp [hx])) h3)
    · show strRead 32 cd.1.name = cd.1.name
      exact strRead_eq_self 32 cd.1.name hnlen hnz
    · intro s hs
      rfl

/-- The full pipeline on a nonempty channel list: `write_header`, the
per-channel writes, and `finish` succeed, and reading the result back walks
the record list into the resolved metadata, with the per-record read-back
facts available on the finished file. -/
theorem pipeline_ok (f32enc : ℚ → List Nat) (f32dec : Nat → ℚ) (f0 : File)
    (fullHeader : List Nat) (hdr : Header) (c0 : Channel × List Sample)
    (rest : List (Channel × List Sample))
    (hgood : ∀ cd ∈ c0 :: rest, GoodChannel cd.1 cd.2)
    (hstr : ∀ cd ∈ c0 :: rest, GoodStrings cd.1)
    (hcodec : ∀ cd ∈ c0 :: rest, ∀ s ∈ cd.2, sampleCodecOK f32enc f32dec s)
    (hsize : 13384 + totalSize (c0 :: rest) < 2 ^ 32) :
    ∃ F : File,
      LDWriter.finish (runWriter f32enc f0 fullHeader hdr (c0 :: rest)) =
        some F ∧
      read_channels F ((c0 :: rest).length + 1) =
        some (.ok (metasOf 0 13384 (c0 :: rest))) ∧
      RecordsOK f32dec F 0 13384 (c0 :: rest) := by
  obtain ⟨hA, hB, hC, hD, hD2, hE⟩ :=
    processAll f32enc f32dec (c0 :: rest)
      (LDWriter.write_header (LDWriter.new f0) fullHeader hdr) 0
      rfl hgood hstr hcodec hsize (by show 0 < 13384; omega) (Or.inl rfl)
  have hA' : (runWriter f32enc f0 fullHeader hdr (c0 :: rest)).channels =
      chAddrs 13384 (c0 :: rest) := by
    rw [runWriter, hA]
    rfl
  have hB' : (runWriter f32enc f0 fullHeader hdr
      (c0 :: rest)).channel_data_blocks = dataAddrs 13384 (c0 :: rest) := by
    rw [runWriter, hB]
    rfl
  have hE' : RecordsOK f32dec
      (runWriter f32enc f0 fullHeader hdr (c0 :: rest)).file 0 13384
      (c0 :: rest) := hE
  have hminC : listMin (chAddrs 13384 (c0 :: rest)) = some 13384 := by
    show listMin (13384 :: chAddrs (13384 + chanSize c0) rest) = some 13384
    refine listMin_cons_of_lb _ _ fun a ha => ?_
    have := chAddrs_lb rest (13384 + chanSize c0) a ha
    omega
  have hminD : listMin (dataAddrs 13384 (c0 :: rest)) = some 13508 := by
    show listMin (13508 :: dataAddrs (13384 + chanSize c0) rest) = some 13508
    refine listMin_cons_of_lb _ _ fun a ha => ?_
    have := dataAddrs_lb rest (13384 + chanSize c0) a ha
    omega
  have h1 : listMin (runWriter f32enc f0 fullHeader hdr
      (c0 :: rest)).channel_data_blocks = some 13508 := by
    rw [hB']
    exact hminD
  have h2 : listMin (runWriter f32enc f0 fullHeader hdr
      (c0 :: rest)).channels = some 13384 := by
    rw [hA']
    exact hminC
  refine ⟨writeBytes
      (writeBytes (runWriter f32enc f0 fullHeader hdr (c0 :: rest)).file
        (Header.CHANNEL_DATA_OFFSET) (u32le 13508))
      (Header.CHANNEL_META_OFFSET) (u32le 13384), ?_, ?_, ?_⟩
  · unfold LDWriter.finish
    rw [h1, h2]
  · have hRec : RecordsOK f32dec
        (writeBytes
          (writeBytes (runWriter f32enc f0 fullHeader hdr (c0 :: rest)).file
            (Header.CHANNEL_DATA_OFFSET) (u32le 13508))
          (Header.CHANNEL_META_OFFSET) (u32le 13384)) 0 13384
        (c0 :: rest) := by
      refine RecordsOK_mono f32dec ?_ (c0 :: rest) 0 13384 (by omega) hE'
      intro x hx
      rw [writeBytes_out _ _
          (by rw [u32le_length, Header.CHANNEL_META_OFFSET]; omega),
        writeBytes_out _ _
          (by rw [u32le_length, Header.CHANNEL_DATA_OFFSET]; omega)]
    have hmetaAddr : (addressTable
        (writeBytes
          (writeBytes (runWriter f32enc f0 fullHeader hdr (c0 :: rest)).file
            (Header.CHANNEL_DATA_OFFSET) (u32le 13508))
          (Header.CHANNEL_META_OFFSET) (u32le 13384))).channel_meta =
        13384 := by
      show readU32 _ Header.CHANNEL_META_OFFSET = 13384
      exact readU32_writeBytes_u32le_lt _ _ _ (by norm_num)
    rw [read_channels, hmetaAddr]
    have hwalk := readChannels_walk f32dec _ (c0 :: rest) 0 13384
      ((c0 :: rest).length + 1) (by omega) (by omega) hRec
    rw [if_neg (by simp)] at hwalk
    exact hwalk
  · refine RecordsOK_mono f32dec ?_ (c0 :: rest) 0 13384 (by omega) hE'
    intro x hx
    rw [writeBytes_out _ _
        (by rw [u32le_length, Header.CHANNEL_META_OFFSET]; omega),
      writeBytes_out _ _
        (by rw [u32le_length, Header.CHANNEL_DATA_OFFSET]; omega)]

/-- A trivial header used by writer witnesses. -/
def emptyHeader : Header :=
  { device_serial := 0, device_type := [], device_version := 0,
    num_channels := 2, date_string := [], time_string := [], driver := [],
    vehicleid := [], venue := [], session := [], short_comment := [] }

/-- C4 witness: the two-channel layout applied to two concrete one-sample
I16 channels. -/
theorem C4_two_channel_layout_witness :
    (runWriter (fun _ => []) (fun _ => 0) [] emptyHeader
        [(airTempChannel, [Sample.I16 1]),
         (airTempChannel, [Sample.I16 2])]).channels =
      [13384, 13508 + [Sample.I16 1].length * airTempChannel.datatype.size] ∧
    (runWriter (fun _ => []) (fun _ => 0) [] emptyHeader
        [(airTempChannel, [Sample.I16 1]),
         (airTempChannel, [Sample.I16 2])]).channel_data_blocks =
      [13508, 13632 + [Sample.I16 1].length * airTempChannel.datatype.size] ∧
    readU32 (runWriter (fun _ => []) (fun _ => 0) [] emptyHeader
        [(airTempChannel, [Sample.I16 1]),
         (airTempChannel, [Sample.I16 2])]).file
        (13384 + FileChannel.NEXT_ADDR_OFFSET) =
      13508 + [Sample.I16 1].length * airTempChannel.datatype.size ∧
    readU32 (runWriter (fun _ => []) (fun _ => 0) [] emptyHeader
        [(airTempChannel, [Sample.I16 1]),
         (airTempChannel, [Sample.I16 2])]).file
        (13384 + FileChannel.DATA_ADDR_OFFSET) = 13508 ∧
    readU32 (runWriter (fun _ => []) (fun _ => 0) [] emptyHeader
        [(airTempChannel, [Sample.I16 1]),
         (airTempChannel, [Sample.I16 2])]).file
        (13508 + [Sample.I16 1].length * airTempChannel.datatype.size +
          FileChannel.DATA_ADDR_OFFSET) =
      13632 + [Sample.I16 1].length * airTempChannel.datatype.size :=
  C4_two_channel_layout (fun _ => []) (fun _ => 0) [] emptyHeader
    airTempChannel [Sample.I16 1] airTempChannel [Sample.I16 2]
    (by norm_num [Datatype.size, airTempChannel])

/-- C2 (amended): for every header and nonempty channel/sample sequence whose
channels carry a datatype the reader decodes (the integer ones or `F32` —
`F16` is `unimplemented!` and `Invalid` panics), samples matching it (with
the abstract f32 codec inverting on `F32` payloads, as the IEEE bit codec
does), in-range field values, a name that fits the 32-byte name field with
no NUL byte, and name/short-name/unit fields whose on-file truncations are
well-formed UTF-8, writing with
`write_header`/`write_channel`/`write_channel_data`/`finish` and reading
back with `read_channels`/`channel_data` succeeds and reproduces, channel
for channel, the same name, sample rate and decode parameters (`offset`,
`mul`, `scale`, `dec_places`), the same samples, and the same decoded
engineering value for every sample (exactly, hence within any
floating-point epsilon). Without the string restrictions the claim fails:
a name of more than 32 bytes truncates (see the counterexample), and a
short-name/unit truncation that splits a multi-byte UTF-8 character makes
`read_channels` fail with `NonUtf8String` (also in the counterexample). -/
theorem C2_roundtrip (f32enc : ℚ → List Nat) (f32dec : Nat → ℚ)
    (f0 : File) (fullHeader : List Nat) (hdr : Header)
    (cds : List (Channel × List Sample)) (hne : cds ≠ [])
    (hgood : ∀ cd ∈ cds, GoodChannel cd.1 cd.2)
    (hstr : ∀ cd ∈ cds, GoodStrings cd.1)
    (hcodec : ∀ cd ∈ cds, ∀ s ∈ cd.2, sampleCodecOK f32enc f32dec s)
    (hname : ∀ cd ∈ cds, GoodName cd.1)
    (hsize : 13384 + totalSize cds < 2 ^ 32) :
    ∃ F : File,
      LDWriter.finish (runWriter f32enc f0 fullHeader hdr cds) = some F ∧
      read_channels F (cds.length + 1) = some (.ok (metasOf 0 13384 cds)) ∧
      List.Forall₂
        (fun (m : ChannelMetadata) (cd : Channel × List Sample) =>
          m.name = cd.1.name ∧ m.sample_rate = cd.1.sample_rate ∧
          m.offset = cd.1.offset ∧ m.mul = cd.1.mul ∧
          m.scale = cd.1.scale ∧ m.dec_places = cd.1.dec_places ∧
          channel_data f32dec F m = some cd.2 ∧
          ∀ s ∈ cd.2, Sample.decode_f64 s m.toChannel =
            Sample.decode_f64 s cd.1)
        (metasOf 0 13384 cds) cds := by
  match cds, hne with
  | c0 :: rest, _ =>
    obtain ⟨F, hfin, hread, hrec⟩ :=
      pipeline_ok f32enc f32dec f0 fullHeader hdr c0 rest hgood hstr hcodec
        hsize
    exact ⟨F, hfin, hread,
      metasOf_spec f32dec F (c0 :: rest) 0 13384 hname hrec⟩

/-- C2 witness: the amended round-trip applied to one concrete I16 channel
with one sample. -/
theorem C2_roundtrip_witness :
    [(airTempChannel, [Sample.I16 5])] ≠ [] ∧
    (∀ cd ∈ [(airTempChannel, [Sample.I16 5])], GoodChannel cd.1 cd.2) ∧
    (∀ cd ∈ [(airTempChannel, [Sample.I16 5])], GoodStrings cd.1) ∧
    (∀ cd ∈ [(airTempChannel, [Sample.I16 5])], ∀ s ∈ cd.2,
      sampleCodecOK (fun _ => []) (fun _ => 0) s) ∧
    (∀ cd ∈ [(airTempChannel, [Sample.I16 5])], GoodName cd.1) ∧
    13384 + totalSize [(airTempChannel, [Sample.I16 5])] < 2 ^ 32 ∧
    ∃ F : File,
      LDWriter.finish (runWriter (fun _ => []) (fun _ => 0) [] emptyHeader
        [(airTempChannel, [Sample.I16 5])]) = some F ∧
      read_channels F ([(airTempChannel, [Sample.I16 5])].length + 1) =
        some (.ok (metasOf 0 13384 [(airTempChannel, [Sample.I16 5])])) ∧
      List.Forall₂
        (fun (m : ChannelMetadata) (cd : Channel × List Sample) =>
          m.name = cd.1.name ∧ m.sample_rate = cd.1.sample_rate ∧
          m.offset = cd.1.offset ∧ m.mul = cd.1.mul ∧
          m.scale = cd.1.scale ∧ m.dec_places = cd.1.dec_places ∧
          channel_data (fun _ => 0) F m = some cd.2 ∧
          ∀ s ∈ cd.2, Sample.decode_f64 s m.toChannel =
            Sample.decode_f64 s cd.1)
        (metasOf 0 13384 [(airTempChannel, [Sample.I16 5])])
        [(airTempChannel, [Sample.I16 5])] :=
  ⟨by decide, by decide, by decide, by decide, by decide, by decide,
    C2_roundtrip (fun _ => []) (fun _ => 0) (fun _ => 0) [] emptyHeader
      [(airTempChannel, [Sample.I16 5])] (by decide) (by decide) (by decide)
      (by decide) (by decide) (by decide)⟩

/-- The counterexample channel: its name is 33 bytes, one more than the
32-byte name field of the on-file record. -/
def ceChannel : Channel :=
  { datatype := .I16, sample_rate := 1, offset := 0, mul := 1, scale := 1,
    dec_places := 0, name := List.replicate 33 97, short_name := [],
    unit := [] }

/-- The finished file of the pipeline run on the counterexample channel. -/
def ceFile : File :=
  (LDWriter.finish (runWriter (fun _ => []) (fun _ => 0) [] emptyHeader
    [(ceChannel, [])])).getD fun _ => 0

/-- A second counterexample channel: its 9-byte `short_name` is 7 ASCII
bytes followed by the two-byte UTF-8 character U+00E9 (0xC3 0xA9), so the
8-byte field truncation cuts the character in half, leaving a dangling lead
byte. -/
def ceChannel2 : Channel :=
  { datatype := .I16, sample_rate := 1, offset := 0, mul := 1, scale := 1,
    dec_places := 0, name := [97],
    short_name := [97, 98, 99, 100, 101, 102, 103, 0xC3, 0xA9],
    unit := [] }

/-- The finished file of the pipeline run on the second counterexample
channel. -/
def ceFile2 : File :=
  (LDWriter.finish (runWriter (fun _ => []) (fun _ => 0) [] emptyHeader
    [(ceChannel2, [])])).getD fun _ => 0

set_option maxRecDepth 8000 in
/-- C2 counterexample, refuting the claim's unqualified round-trip twice
over: (a) with a 33-byte channel name the pipeline succeeds and reads
exactly one channel back, but the read-back name is the 32-byte truncation,
not the name supplied; (b) with a `short_name` whose 8-byte field truncation
splits a two-byte UTF-8 character, reading back fails outright with
`NonUtf8String`, reproducing nothing. -/
theorem C2_roundtrip_counterexample :
    (read_channels ceFile 2 =
      some (.ok (metasOf 0 13384 [(ceChannel, [])])) ∧
    (metasOf 0 13384 [(ceChannel, [])]).map ChannelMetadata.name ≠
      [ceChannel.name]) ∧
    read_channels ceFile2 2 = some (.error .NonUtf8String) := by
  obtain ⟨F, hfin, hread, _⟩ :=
    pipeline_ok (fun _ => []) (fun _ => 0) (fun _ => 0) [] emptyHeader
      (ceChannel, []) [] (by decide) (by decide) (by decide) (by decide)
  have hF : ceFile = F := by
    rw [ceFile, hfin]
    rfl
  refine ⟨⟨?_, by decide⟩, by decide⟩
  rw [hF]
  exact hread

end MotecI2
